import Mathlib

set_option linter.unusedVariables false

/-!
Verification development for the vibetracker ingestion core: a shallow
embedding of the source adapters (Claude, Cursor, Gemini), the tool-name
normalizer, the event mapper and the idempotent SQLite store, together with
theorems settling the specification's claims about them.

Strings from the transcripts are modelled as Lean `String`s; JSON values that
tool arguments may hold are modelled just finely enough to distinguish
"string" from "not a string", which is all the source inspects.  Randomized
UUIDv7 generation is modelled as an abstract id supply `Nat → String`
(injective when freshness matters).  A thrown exception in a parser is
modelled as `Option.none`.
-/

/-- Event kinds of the canonical event model (`EventType` in `schema.ts`). -/
inductive EventType
  | session_start
  | session_end
  | prompt
  | turn_start
  | turn_end
  | tool_call
  | error
deriving DecidableEq, Repr

/-- Canonical tool names (`ToolName` in `schema.ts`). -/
inductive ToolName
  | bash
  | file_read
  | file_write
  | file_edit
  | file_delete
  | grep
  | glob
  | list_dir
  | web_fetch
  | web_search
  | task
  | mcp_tool
  | other
deriving DecidableEq, Repr

/-- Agent sources (`AgentSource` in `schema.ts`). -/
inductive AgentSource
  | claude_code
  | codex
  | gemini
  | opencode
  | cursor
  | other
deriving DecidableEq, Repr

/-- File actions (`'create' | 'update' | 'delete'`). -/
inductive FileAction
  | create
  | update
  | delete
deriving DecidableEq, Repr

/-- A JSON value inside a tool-argument object, abstracted to what the code
inspects: either a string or some non-string value. -/
inductive JVal
  | str (s : String)
  | nonstr
deriving DecidableEq, Repr

/-- A tool-argument object: an association list of own properties. -/
def ToolInput := List (String × JVal)

instance : DecidableEq ToolInput := by unfold ToolInput; infer_instance

instance : Repr ToolInput := by unfold ToolInput; infer_instance

/-- Property access `obj[k]` followed by a `typeof v === 'string'` check. -/
def getStr (input : ToolInput) (k : String) : Option String :=
  match input.lookup k with
  | some (JVal.str s) => some s
  | _ => none

/-- Property access `obj[k]` (the raw value, present or not). -/
def getVal (input : ToolInput) (k : String) : Option JVal :=
  input.lookup k

/-- Deterministic rendering of a tool-argument object, standing for
`JSON.stringify(tool.input)`: the proofs only use that it is a function of
the input. -/
def stringifyInput (input : ToolInput) : String :=
  input.foldl
    (fun acc kv =>
      acc ++ "|" ++ kv.1 ++ "=" ++ (match kv.2 with
        | JVal.str s => "s:" ++ s
        | JVal.nonstr => "?"))
    ""

/-- JavaScript `text.split('\n')` on the character list of the text. -/
def splitNl : List Char → List (List Char)
  | [] => [[]]
  | c :: rest =>
    if c = '\n' then [] :: splitNl rest
    else
      match splitNl rest with
      | [] => [[c]]
      | h :: t => (c :: h) :: t

/-- `countLines` from the adapters: `0` on empty text, else
`text.split('\n').length`. -/
def countLines (s : String) : Nat :=
  if s = "" then 0 else (splitNl s.data).length

/-- File-effect information extracted from a tool call (`FileInfo`). -/
structure FileInfo where
  file_path : Option String := none
  file_action : Option FileAction := none
  file_lines_added : Option Nat := none
  file_lines_removed : Option Nat := none
deriving DecidableEq, Repr

/-- `extractFileInfo` of `ingest/claude.ts`: per-tool file-effect heuristics
over the tool's argument object. -/
def extractFileInfo (toolName : String) (input : ToolInput) : FileInfo :=
  if toolName = "Read" then
    match getStr input "file_path" with
    | some p => { file_path := some p }
    | none => {}
  else if toolName = "Write" then
    match getStr input "file_path" with
    | some p =>
      { file_path := some p
        file_action := some FileAction.update
        file_lines_added := (getStr input "content").map countLines }
    | none => {}
  else if toolName = "Edit" ∨ toolName = "MultiEdit" then
    match getStr input "file_path" with
    | some p =>
      { file_path := some p
        file_action := some FileAction.update
        file_lines_removed := (getStr input "old_string").map countLines
        file_lines_added := (getStr input "new_string").map countLines }
    | none => {}
  else {}

/-- Adapter output before identity stamping (`ParsedEvent` in
`ingest/types.ts`). -/
structure ParsedEvent where
  timestamp : String
  event_type : EventType
  session_id : String
  cwd : Option String := none
  git_branch : Option String := none
  git_repo : Option String := none
  turn_index : Option Nat := none
  model : Option String := none
  prompt_tokens : Option Nat := none
  completion_tokens : Option Nat := none
  total_tokens : Option Nat := none
  tool_name : Option ToolName := none
  tool_name_raw : Option String := none
  tool_input : Option String := none
  file_path : Option String := none
  file_action : Option FileAction := none
  file_lines_added : Option Nat := none
  file_lines_removed : Option Nat := none
  prompt_text : Option String := none
  agent_id : Option String := none
  agent_type : Option String := none
deriving DecidableEq, Repr

/-- Result of parsing one transcript (`ParsedTranscript`). -/
structure ParsedTranscript where
  source : AgentSource
  session_id : String
  events : List ParsedEvent
deriving DecidableEq, Repr

/-- Content block of a Claude-style (or Cursor-style) message. -/
inductive CBlock
  | text (t : String)
  | thinking
  | tool_use (name : String) (input : ToolInput)
  | tool_result
deriving DecidableEq, Repr

/-- The `content` field of a message: a plain string, an array of blocks, or
absent. -/
inductive CContent
  | str (s : String)
  | blocks (bs : List CBlock)
  | missing
deriving DecidableEq, Repr

/-- Token usage block of a message. -/
structure CUsage where
  input_tokens : Option Nat := none
  output_tokens : Option Nat := none
  cache_read_input_tokens : Option Nat := none
  cache_creation_input_tokens : Option Nat := none
deriving DecidableEq, Repr

/-- The `message` object of a transcript entry. -/
structure CMessage where
  role : String
  model : Option String := none
  content : CContent := CContent.missing
  usage : Option CUsage := none
deriving DecidableEq, Repr

/-- One decoded line of a Claude transcript (`ClaudeTranscriptEntry`).
`none` in `timestamp`/`sessionId` stands for an absent (or empty, hence
falsy) field. -/
structure ClaudeEntry where
  type : String
  timestamp : Option String := none
  sessionId : Option String := none
  uuid : String := ""
  cwd : Option String := none
  gitBranch : Option String := none
  message : Option CMessage := none
deriving DecidableEq, Repr

/-- The hook payload accompanying a Claude ingestion (`ClaudeHookPayload`). -/
structure ClaudeHookPayload where
  session_id : String
  transcript_path : String := ""
  cwd : String := ""
  hook_event_name : String := ""
deriving DecidableEq, Repr

/-- A buffered tool call of the current turn. -/
structure TurnTool where
  name : String
  input : ToolInput
  fileInfo : FileInfo
deriving DecidableEq, Repr

/-- The mutable state of `parseClaudeTranscript`'s line loop, made explicit. -/
structure CState where
  events : List ParsedEvent := []
  turnIndex : Nat := 0
  sessionId : Option String := none
  sessionCwd : Option String := none
  sessionGitBranch : Option String := none
  firstTimestamp : Option String := none
  lastTimestamp : Option String := none
  seenUuids : List String := []
  curTokens : Nat := 0
  curModel : Option String := none
  curTimestamp : Option String := none
  curTools : List TurnTool := []
deriving DecidableEq, Repr

/-- The `tool_call` events emitted for the buffered tools of a flushed turn. -/
def turnToolEvents (ts sid : String) (k : Nat) (tools : List TurnTool) :
    List ParsedEvent :=
  tools.map (fun t =>
    { timestamp := ts
      session_id := sid
      event_type := EventType.tool_call
      turn_index := some k
      tool_name_raw := some t.name
      tool_input := some (stringifyInput t.input)
      file_path := t.fileInfo.file_path
      file_action := t.fileInfo.file_action
      file_lines_added := t.fileInfo.file_lines_added
      file_lines_removed := t.fileInfo.file_lines_removed })

/-- `flushTurn` of `ingest/claude.ts`: emit `turn_end` plus the buffered
`tool_call`s when a turn is pending, then reset the accumulators. -/
def flushTurn (s : CState) : CState :=
  match s.curTimestamp, s.sessionId with
  | some ts, some sid =>
    let k := s.turnIndex + 1
    let te : ParsedEvent :=
      { timestamp := ts
        session_id := sid
        event_type := EventType.turn_end
        turn_index := some k
        model := s.curModel
        prompt_tokens := if s.curTokens = 0 then none else some s.curTokens }
    { s with
      events := s.events ++ te :: turnToolEvents ts sid k s.curTools
      turnIndex := k
      curTokens := 0
      curModel := none
      curTimestamp := none
      curTools := [] }
  | _, _ =>
    { s with curTokens := 0, curModel := none, curTimestamp := none,
             curTools := [] }

/-- Does a block array contain emittable content (`text` or `tool_use`)? -/
def hasRealContent : CContent → Bool
  | CContent.blocks bs =>
    bs.any (fun b =>
      match b with
      | CBlock.text _ => true
      | CBlock.tool_use _ _ => true
      | _ => false)
  | _ => false

/-- The `tool_use` blocks of a content value, each paired with its extracted
file info. -/
def collectToolUses : CContent → List TurnTool
  | CContent.blocks bs =>
    bs.filterMap (fun b =>
      match b with
      | CBlock.tool_use n inp =>
        some { name := n, input := inp, fileInfo := extractFileInfo n inp }
      | _ => none)
  | _ => []

/-- Prompt text of a Claude user message: only a plain string content is
extracted (`typeof content === 'string'`). -/
def claudePromptText (msg : Option CMessage) : Option String :=
  match msg with
  | some m =>
    match m.content with
    | CContent.str t => some t
    | _ => none
  | none => none

/-- Append the `prompt` event the user branch emits. -/
def pushPrompt (s : CState) (ets : String) (msg : Option CMessage) : CState :=
  { s with
    events := s.events ++
      [{ timestamp := ets
         session_id := s.sessionId.getD ""
         event_type := EventType.prompt
         cwd := s.sessionCwd
         git_branch := s.sessionGitBranch
         prompt_text := claudePromptText msg }] }

/-- Absorb an assistant entry with content into the turn accumulator:
max-accumulate the cumulative input tokens, remember model and timestamp,
buffer the `tool_use` blocks. -/
def absorbAssistant (s : CState) (ets : String) (m : CMessage) : CState :=
  if hasRealContent m.content = false then s
  else
    let s :=
      match m.usage with
      | some u =>
        let reported := (u.input_tokens.getD 0) +
          (u.cache_read_input_tokens.getD 0) +
          (u.cache_creation_input_tokens.getD 0)
        { s with curTokens := max s.curTokens reported }
      | none => s
    let s := { s with curModel := s.curModel <|> m.model,
                      curTimestamp := some ets }
    { s with curTools := s.curTools ++ collectToolUses m.content }

/-- One iteration of `parseClaudeTranscript`'s line loop on a decoded entry. -/
def cstep (s : CState) (e : ClaudeEntry) : CState :=
  match e.sessionId, e.timestamp with
  | some esid, some ets =>
    let s :=
      { s with
        sessionId := s.sessionId <|> some esid
        sessionCwd := s.sessionCwd <|> e.cwd
        sessionGitBranch := s.sessionGitBranch <|> e.gitBranch
        firstTimestamp := s.firstTimestamp <|> some ets
        lastTimestamp := some ets }
    if e.type = "user" ∧ e.message.map CMessage.role = some "user" then
      pushPrompt (flushTurn s) ets e.message
    else if e.type = "assistant" ∧ e.message.map CMessage.role = some "assistant" then
      if s.seenUuids.contains e.uuid then s
      else
        let s := { s with seenUuids := e.uuid :: s.seenUuids }
        match e.message with
        | none => s
        | some m => absorbAssistant s ets m
    else s
  | _, _ => s

/-- `parseClaudeTranscript`'s body on already-decoded entries: run the line
loop, flush the pending turn, then bracket with `session_start` and
`session_end`. -/
def parseClaudeEntries (hook : Option ClaudeHookPayload)
    (entries : List ClaudeEntry) : ParsedTranscript :=
  let init : CState :=
    { sessionId := hook.map ClaudeHookPayload.session_id
      sessionCwd := hook.map ClaudeHookPayload.cwd }
  let s := flushTurn (entries.foldl cstep init)
  let evs := s.events
  let evs :=
    match s.sessionId, s.firstTimestamp with
    | some sid, some ts =>
      ({ timestamp := ts
         session_id := sid
         event_type := EventType.session_start
         cwd := s.sessionCwd
         git_branch := s.sessionGitBranch } : ParsedEvent) :: evs
    | _, _ => evs
  let evs :=
    match s.sessionId, s.lastTimestamp with
    | some sid, some ts =>
      evs ++
        [{ timestamp := ts
           session_id := sid
           event_type := EventType.session_end
           cwd := s.sessionCwd
           git_branch := s.sessionGitBranch }]
    | _, _ => evs
  { source := AgentSource.claude_code
    session_id := s.sessionId.getD ""
    events := evs }

/-- One raw line of a line-oriented transcript: either it decodes to an
entry, or `JSON.parse` raises on it. -/
inductive ClaudeLine
  | ok (e : ClaudeEntry)
  | bad
deriving DecidableEq, Repr

/-- Decode raw lines; `JSON.parse` raising on any line aborts the whole
run. -/
def decodeClaudeLines : List ClaudeLine → Option (List ClaudeEntry)
  | [] => some []
  | ClaudeLine.ok e :: rest => (decodeClaudeLines rest).map (fun es => e :: es)
  | ClaudeLine.bad :: _ => none

/-- `parseClaudeTranscript` of `ingest/claude.ts` over raw lines.  The line
loop calls `JSON.parse(line)` without a handler, so one malformed line
aborts the whole parse (modelled as `none`). -/
def parseClaudeTranscript (hook : Option ClaudeHookPayload)
    (lines : List ClaudeLine) : Option ParsedTranscript :=
  (decodeClaudeLines lines).map (parseClaudeEntries hook)

/-- One decoded line of a Cursor transcript (`CursorTranscriptEntry`).  The
message shape coincides with the Claude one. -/
structure CursorEntry where
  type : String
  timestamp : Option String := none
  conversationId : Option String := none
  message : Option CMessage := none
deriving DecidableEq, Repr

/-- The hook payload accompanying a Cursor ingestion (`CursorHookPayload`). -/
structure CursorHookPayload where
  conversation_id : String
  model : String := ""
  workspace_roots : List String := []
deriving DecidableEq, Repr

/-- The mutable state of `parseCursorTranscript`'s line loop. -/
structure CuState where
  events : List ParsedEvent := []
  turnIndex : Nat := 0
  sessionId : Option String := none
  seenKeys : List String := []
  curTokens : Nat := 0
  curModel : Option String := none
  curTimestamp : Option String := none
  curTools : List TurnTool := []
deriving DecidableEq, Repr

/-- `flushTurn` of `ingest/cursor.ts`.  The per-turn model resets to the hook
payload's model; `createParsedEvent` of this adapter drops the normalized
`tool_name` parameter, so no `tool_name` is set on the emitted events. -/
def cursorFlushTurn (hookModel : Option String) (s : CuState) : CuState :=
  match s.curTimestamp, s.sessionId with
  | some ts, some sid =>
    let k := s.turnIndex + 1
    let te : ParsedEvent :=
      { timestamp := ts
        session_id := sid
        event_type := EventType.turn_end
        turn_index := some k
        model := s.curModel
        prompt_tokens := if s.curTokens = 0 then none else some s.curTokens }
    { s with
      events := s.events ++ te :: turnToolEvents ts sid k s.curTools
      turnIndex := k
      curTokens := 0
      curModel := hookModel
      curTimestamp := none
      curTools := [] }
  | _, _ =>
    { s with curTokens := 0, curModel := hookModel, curTimestamp := none,
             curTools := [] }

/-- Does a content array contain a `tool_result` block? -/
def hasToolResultBlock : CContent → Bool
  | CContent.blocks bs =>
    bs.any (fun b =>
      match b with
      | CBlock.tool_result => true
      | _ => false)
  | _ => false

/-- Prompt text of a Cursor user message: the string content, or the text of
the first `text` block of an array content. -/
def cursorPromptText : CContent → Option String
  | CContent.str t => some t
  | CContent.blocks bs =>
    bs.findSome? (fun b =>
      match b with
      | CBlock.text t => some t
      | _ => none)
  | CContent.missing => none

/-- Append the `prompt` event of a Cursor user message. -/
def cuPushPrompt (cwd0 : Option String) (s : CuState) (ets : String)
    (m : CMessage) : CuState :=
  { s with
    events := s.events ++
      [{ timestamp := ets
         session_id := s.sessionId.getD ""
         event_type := EventType.prompt
         cwd := cwd0
         prompt_text := cursorPromptText m.content }] }

/-- Absorb a Cursor assistant entry into the turn accumulator. -/
def cuAbsorbAssistant (s : CuState) (ets : String) (m : CMessage) : CuState :=
  if hasRealContent m.content = false then s
  else
    let s :=
      match m.usage with
      | some u =>
        let reported := (u.input_tokens.getD 0) +
          (u.cache_read_input_tokens.getD 0) +
          (u.cache_creation_input_tokens.getD 0)
        { s with curTokens := max s.curTokens reported }
      | none => s
    let s := { s with curModel := s.curModel <|> m.model,
                      curTimestamp := some ets }
    { s with curTools := s.curTools ++ collectToolUses m.content }

/-- One iteration of `parseCursorTranscript`'s line loop on a decoded
entry. -/
def custep (hook : Option CursorHookPayload) (cwd0 : Option String)
    (s : CuState) (e : CursorEntry) : CuState :=
  match e.timestamp with
  | none => s
  | some ets =>
    let s := { s with sessionId := s.sessionId <|> e.conversationId }
    let key := e.type ++ ":" ++ ets
    if s.seenKeys.contains key then s
    else
      let s := { s with seenKeys := key :: s.seenKeys }
      if e.type = "user" ∧ e.message.map CMessage.role = some "user" then
        let s := cursorFlushTurn (hook.map CursorHookPayload.model) s
        match e.message with
        | none => s
        | some m =>
          if hasToolResultBlock m.content then s
          else cuPushPrompt cwd0 s ets m
      else if e.type = "assistant" ∧ e.message.map CMessage.role = some "assistant" then
        match e.message with
        | none => s
        | some m => cuAbsorbAssistant s ets m
      else s

/-- One raw line of a Cursor transcript. -/
inductive CursorLine
  | ok (e : CursorEntry)
  | bad
deriving DecidableEq, Repr

/-- `parseCursorTranscript` of `ingest/cursor.ts`: malformed lines are caught
and skipped, the loop continues; no session bracketing events are
synthesized. -/
def parseCursorTranscript (hook : Option CursorHookPayload)
    (lines : List CursorLine) : ParsedTranscript :=
  let cwd0 : Option String := hook.bind (fun h => h.workspace_roots.head?)
  let init : CuState :=
    { sessionId := hook.map CursorHookPayload.conversation_id
      curModel := hook.map CursorHookPayload.model }
  let s := lines.foldl
    (fun s l =>
      match l with
      | CursorLine.ok e => custep hook cwd0 s e
      | CursorLine.bad => s)
    init
  let s := cursorFlushTurn (hook.map CursorHookPayload.model) s
  { source := AgentSource.cursor
    session_id := s.sessionId.getD ""
    events := s.events }

/-- Token usage of a Gemini assistant message (`GeminiTokens`). -/
structure GTokens where
  input : Nat := 0
  output : Nat := 0
  cached : Nat := 0
  thoughts : Nat := 0
  tool : Nat := 0
  total : Nat := 0
deriving DecidableEq, Repr

/-- One tool call of a Gemini assistant message (`GeminiToolCall`). -/
structure GToolCall where
  id : String := ""
  name : String
  args : ToolInput
  timestamp : Option String := none
deriving DecidableEq, Repr

/-- One message of a Gemini transcript (`GeminiMessage`). -/
inductive GMsg
  | user (content : String) (timestamp : Option String)
  | gmsg (content : String) (toolCalls : Option (List GToolCall))
      (tokens : Option GTokens) (model : Option String)
      (timestamp : Option String)
  | error (content : String) (timestamp : Option String)
  | info (content : String) (timestamp : Option String)
deriving DecidableEq, Repr

/-- The timestamp of a Gemini message. -/
def GMsg.ts : GMsg → Option String
  | GMsg.user _ t => t
  | GMsg.gmsg _ _ _ _ t => t
  | GMsg.error _ t => t
  | GMsg.info _ t => t

/-- A Gemini transcript document (`GeminiTranscript`): one JSON object with a
`messages` array. -/
structure GeminiTranscript where
  sessionId : String
  projectHash : String := ""
  startTime : Option String := none
  lastUpdated : Option String := none
  messages : List GMsg
deriving DecidableEq, Repr

/-- The hook payload accompanying a Gemini ingestion (`GeminiHookPayload`). -/
structure GeminiHookPayload where
  session_id : String
  transcript_path : String := ""
  cwd : String := ""
deriving DecidableEq, Repr

/-- `extractFileInfo` of `ingest/gemini.ts`: nullish-coalescing chains over
alternative argument keys, then a string check. -/
def geminiExtractFileInfo (toolName : String) (args : ToolInput) : FileInfo :=
  if toolName = "read_file" then
    match (getVal args "path" <|> getVal args "file_path" <|> getVal args "target") with
    | some (JVal.str p) => { file_path := some p }
    | _ => {}
  else if toolName = "write_file" then
    match (getVal args "path" <|> getVal args "file_path" <|> getVal args "target") with
    | some (JVal.str p) =>
      { file_path := some p
        file_action := some FileAction.update
        file_lines_added := (getStr args "content").map countLines }
    | _ => {}
  else if toolName = "replace" then
    match (getVal args "path" <|> getVal args "file_path" <|> getVal args "target") with
    | some (JVal.str p) =>
      { file_path := some p, file_action := some FileAction.update }
    | _ => {}
  else if toolName = "run_shell_command" then
    match (getVal args "directory" <|> getVal args "workdir" <|> getVal args "cwd") with
    | some (JVal.str p) => { file_path := some p }
    | _ => {}
  else if toolName = "list_directory" then
    match (getVal args "path" <|> getVal args "dir" <|> getVal args "directory") with
    | some (JVal.str p) => { file_path := some p }
    | _ => {}
  else if toolName = "glob" then
    match getVal args "pattern" with
    | some (JVal.str p) => { file_path := some p }
    | _ => {}
  else if toolName = "search_file_content" then
    match (getVal args "path" <|> getVal args "directory") with
    | some (JVal.str p) => { file_path := some p }
    | _ => {}
  else {}

/-- The state of `parseGeminiTranscript`'s message loop. -/
structure GState where
  events : List ParsedEvent := []
  turnIndex : Nat := 0
  lastTimestamp : Option String := none
deriving DecidableEq, Repr

/-- The `tool_call` events of one Gemini assistant message. -/
def gToolEvents (sessionId : String) (cwd0 : Option String) (mts : String)
    (k : Nat) (tcs : List GToolCall) : List ParsedEvent :=
  tcs.map (fun tc =>
    let fi := geminiExtractFileInfo tc.name tc.args
    { timestamp := tc.timestamp.getD mts
      session_id := sessionId
      event_type := EventType.tool_call
      turn_index := some k
      tool_name_raw := some tc.name
      tool_input := some (stringifyInput tc.args)
      file_path := fi.file_path
      file_action := fi.file_action
      file_lines_added := fi.file_lines_added
      file_lines_removed := fi.file_lines_removed
      cwd := cwd0 })

/-- One iteration of `parseGeminiTranscript`'s message loop. -/
def gstep (sessionId : String) (cwd0 : Option String) (s : GState)
    (m : GMsg) : GState :=
  match m.ts with
  | none => s
  | some mts =>
    let s := { s with lastTimestamp := some mts }
    match m with
    | GMsg.user content _ =>
      { s with
        events := s.events ++
          [{ timestamp := mts
             session_id := sessionId
             event_type := EventType.prompt
             cwd := cwd0
             prompt_text := some content }] }
    | GMsg.gmsg _ toolCalls tokens model _ =>
      let k := s.turnIndex + 1
      let te : ParsedEvent :=
        { timestamp := mts
          session_id := sessionId
          event_type := EventType.turn_end
          turn_index := some k
          model := model
          prompt_tokens := tokens.map GTokens.input
          completion_tokens := tokens.map GTokens.output
          total_tokens := tokens.map GTokens.total
          cwd := cwd0 }
      { s with
        events := s.events ++
          te :: gToolEvents sessionId cwd0 mts k (toolCalls.getD [])
        turnIndex := k }
    | GMsg.error _ _ =>
      { s with
        events := s.events ++
          [{ timestamp := mts
             session_id := sessionId
             event_type := EventType.error
             cwd := cwd0 }] }
    | GMsg.info _ _ => s

/-- `parseGeminiTranscript` of `ingest/gemini.ts`: document-oriented, no
chunk deduplication; a JSON parse failure of the whole document (`doc =
none`) yields an empty transcript; the emitted sequence is bracketed by
`session_start` at the document's `startTime` and `session_end` at the last
observed timestamp (initially `lastUpdated`). -/
def parseGeminiTranscript (hook : Option GeminiHookPayload)
    (doc : Option GeminiTranscript) : ParsedTranscript :=
  match doc with
  | none =>
    { source := AgentSource.gemini
      session_id := (hook.map GeminiHookPayload.session_id).getD ""
      events := [] }
  | some t =>
    let sessionId := (hook.map GeminiHookPayload.session_id).getD t.sessionId
    let cwd0 := hook.map GeminiHookPayload.cwd
    let firstTimestamp := t.startTime
    let s := t.messages.foldl (gstep sessionId cwd0)
      ({ lastTimestamp := t.lastUpdated } : GState)
    let evs := s.events
    let evs :=
      match firstTimestamp with
      | some ts =>
        if sessionId = "" then evs
        else
          ({ timestamp := ts
             session_id := sessionId
             event_type := EventType.session_start
             cwd := cwd0 } : ParsedEvent) :: evs
      | none => evs
    let evs :=
      match s.lastTimestamp with
      | some ts =>
        if sessionId = "" then evs
        else
          evs ++
            [{ timestamp := ts
               session_id := sessionId
               event_type := EventType.session_end
               cwd := cwd0 }]
      | none => evs
    { source := AgentSource.gemini
      session_id := sessionId
      events := evs }

/-- `CLAUDE_TOOL_MAP` of `normalize.ts`. -/
def CLAUDE_TOOL_MAP : List (String × ToolName) :=
  [("Bash", ToolName.bash),
   ("Read", ToolName.file_read),
   ("Write", ToolName.file_write),
   ("Edit", ToolName.file_edit),
   ("MultiEdit", ToolName.file_edit),
   ("Grep", ToolName.grep),
   ("Glob", ToolName.glob),
   ("ListDir", ToolName.list_dir),
   ("WebFetch", ToolName.web_fetch),
   ("WebSearch", ToolName.web_search),
   ("Task", ToolName.task)]

/-- `CODEX_TOOL_MAP` of `normalize.ts`. -/
def CODEX_TOOL_MAP : List (String × ToolName) :=
  [("shell_command", ToolName.bash),
   ("read_file", ToolName.file_read),
   ("write_file", ToolName.file_write),
   ("patch_file", ToolName.file_edit),
   ("delete_file", ToolName.file_delete),
   ("grep", ToolName.grep),
   ("glob", ToolName.glob),
   ("list_dir", ToolName.list_dir),
   ("web_fetch", ToolName.web_fetch),
   ("web_search", ToolName.web_search)]

/-- `GEMINI_TOOL_MAP` of `normalize.ts`. -/
def GEMINI_TOOL_MAP : List (String × ToolName) :=
  [("run_shell_command", ToolName.bash),
   ("read_file", ToolName.file_read),
   ("write_file", ToolName.file_write),
   ("replace", ToolName.file_edit),
   ("search_file_content", ToolName.grep),
   ("glob", ToolName.glob),
   ("list_directory", ToolName.list_dir),
   ("web_fetch", ToolName.web_fetch),
   ("google_web_search", ToolName.web_search),
   ("delegate_to_agent", ToolName.task)]

/-- The property names every plain JavaScript object literal inherits from
`Object.prototype`: bracket access on one of these yields the inherited
member (a function, or the prototype object for `__proto__`) even when the
literal has no such own key. -/
def OBJECT_PROTOTYPE_KEYS : List String :=
  ["constructor", "hasOwnProperty", "isPrototypeOf", "propertyIsEnumerable",
   "toLocaleString", "toString", "valueOf", "__proto__",
   "__defineGetter__", "__defineSetter__",
   "__lookupGetter__", "__lookupSetter__"]

/-- What a JavaScript bracket access `TABLE[key]` on an object literal
yields: the own property when the key is in the literal, else the member
inherited from `Object.prototype` (never nullish), else `undefined`. -/
inductive JsLookup
  | toolName (t : ToolName)
  | protoMember (name : String)
  | undef
deriving DecidableEq, Repr

/-- Bracket access on one of the tool tables, prototype chain included. -/
def recordGet (table : List (String × ToolName)) (key : String) : JsLookup :=
  match table.lookup key with
  | some t => JsLookup.toolName t
  | none =>
    if key ∈ OBJECT_PROTOTYPE_KEYS then JsLookup.protoMember key
    else JsLookup.undef

/-- The runtime value `normalizeToolName` returns: the declared canonical
tool name in the typed cases, or a leaked `Object.prototype` member when the
raw name hits the prototype chain. -/
inductive NormalizeResult
  | tool (t : ToolName)
  | protoLeak (name : String)
deriving DecidableEq, Repr

/-- `TABLE[rawName] ?? 'other'`: nullish coalescing replaces only
`undefined`; an inherited prototype member is not nullish and passes
through. -/
def jsCoalesce : JsLookup → NormalizeResult
  | JsLookup.toolName t => NormalizeResult.tool t
  | JsLookup.protoMember n => NormalizeResult.protoLeak n
  | JsLookup.undef => NormalizeResult.tool ToolName.other

/-- `normalizeToolName` of `normalize.ts`: per-source bracket access with a
nullish-coalescing `other` fallback, and `other` for a source without a
table. -/
def normalizeToolName (rawName : String) (source : String) : NormalizeResult :=
  if source = "claude_code" then jsCoalesce (recordGet CLAUDE_TOOL_MAP rawName)
  else if source = "codex" then jsCoalesce (recordGet CODEX_TOOL_MAP rawName)
  else if source = "gemini" then jsCoalesce (recordGet GEMINI_TOOL_MAP rawName)
  else NormalizeResult.tool ToolName.other

/-- The static table `normalizeToolName` consults for a given source string
(empty for a source without a table). -/
def sourceToolMap (source : String) : List (String × ToolName) :=
  if source = "claude_code" then CLAUDE_TOOL_MAP
  else if source = "codex" then CODEX_TOOL_MAP
  else if source = "gemini" then GEMINI_TOOL_MAP
  else []

/-- Identity configuration supplied to the mapper (`Config`). -/
structure Config where
  user_id : String
  team_id : Option String := none
  machine_id : Option String := none
deriving DecidableEq, Repr

/-- A stored event row (`VibeEvent` in `schema.ts`; one row of the `events`
table). -/
structure VibeEvent where
  id : String
  timestamp : String
  user_id : String
  team_id : Option String := none
  machine_id : Option String := none
  session_id : String
  event_type : EventType
  source : AgentSource
  session_cwd : Option String := none
  session_git_repo : Option String := none
  session_git_branch : Option String := none
  session_duration_ms : Option Nat := none
  turn_index : Option Nat := none
  prompt_tokens : Option Nat := none
  completion_tokens : Option Nat := none
  total_tokens : Option Nat := none
  model : Option String := none
  tool_name : Option ToolName := none
  tool_name_raw : Option String := none
  tool_input : Option String := none
  tool_output : Option String := none
  tool_duration_ms : Option Nat := none
  tool_success : Option Bool := none
  mcp_server : Option String := none
  mcp_tool_name : Option String := none
  file_path : Option String := none
  file_action : Option FileAction := none
  file_lines_added : Option Nat := none
  file_lines_removed : Option Nat := none
  error_message : Option String := none
  error_code : Option String := none
  prompt_text : Option String := none
  agent_id : Option String := none
  agent_type : Option String := none
  meta : Option String := none
  synced_at : Option String := none
deriving DecidableEq, Repr

/-- `mapEventToVibeEvent` of `ingest/mapper.ts`, with the freshly generated
id passed in explicitly. -/
def mapEventToVibeEvent (idStr : String) (e : ParsedEvent)
    (source : AgentSource) (config : Config)
    (cachedGitRepo : Option String) : VibeEvent :=
  { id := idStr
    timestamp := e.timestamp
    user_id := config.user_id
    team_id := config.team_id
    machine_id := config.machine_id
    session_id := e.session_id
    event_type := e.event_type
    source := source
    session_cwd := e.cwd
    session_git_repo := e.git_repo <|> cachedGitRepo
    session_git_branch := e.git_branch
    turn_index := e.turn_index
    model := e.model
    prompt_tokens := e.prompt_tokens
    completion_tokens := e.completion_tokens
    total_tokens := e.total_tokens
    tool_name := e.tool_name
    tool_name_raw := e.tool_name_raw
    tool_input := e.tool_input
    file_path := e.file_path
    file_action := e.file_action
    file_lines_added := e.file_lines_added
    file_lines_removed := e.file_lines_removed
    prompt_text := e.prompt_text
    agent_id := e.agent_id
    agent_type := e.agent_type }

/-- Map a list of parsed events, stamping the `n`-th one with id `mkId n`. -/
def mapEventsFrom (mkId : Nat → String) (n : Nat) (source : AgentSource)
    (config : Config) (cachedGitRepo : Option String) :
    List ParsedEvent → List VibeEvent
  | [] => []
  | e :: rest =>
    mapEventToVibeEvent (mkId n) e source config cachedGitRepo ::
      mapEventsFrom mkId (n + 1) source config cachedGitRepo rest

/-- `mapToVibeEvents` of `ingest/mapper.ts`: resolve the cached git repo at
most once per batch (the external resolver is the parameter `repoOf`), then
stamp every event with identity and a fresh id. -/
def mapToVibeEvents (repoOf : String → Option String) (mkId : Nat → String)
    (parsed : ParsedTranscript) (config : Config) : List VibeEvent :=
  let cachedGitRepo : Option String :=
    match parsed.events.find? (fun e => e.cwd.isSome) with
    | some fe =>
      if parsed.events.any (fun e => e.git_repo.isSome) then none
      else fe.cwd.bind repoOf
    | none => none
  mapEventsFrom mkId 0 parsed.source config cachedGitRepo parsed.events

/-- The content-derived dedup key of a stored event: the columns of the
unique index `idx_events_dedup`, with `COALESCE(…, '')` on the tool
fields. -/
def dedupKey (e : VibeEvent) : String × String × EventType × String × String :=
  (e.session_id, e.timestamp, e.event_type,
   e.tool_name_raw.getD "", e.tool_input.getD "")

/-- The dedup-key columns of a not-yet-mapped event (the mapper copies them
verbatim, so this commutes with mapping). -/
def eventDedupKey (e : ParsedEvent) :
    String × String × EventType × String × String :=
  (e.session_id, e.timestamp, e.event_type,
   e.tool_name_raw.getD "", e.tool_input.getD "")

/-- Does inserting `e` conflict with the already-stored row `r`?  SQLite
rejects the insert when any uniqueness constraint is violated: the primary
key `id`, or the unique dedup index. -/
def conflictsWith (r e : VibeEvent) : Bool :=
  decide (r.id = e.id) || decide (dedupKey r = dedupKey e)

/-- The `INSERT OR IGNORE` loop of `insertEvents`: each event is appended
unless it conflicts with a stored row; `n` counts statements with
`changes > 0`. -/
def insertLoop : List VibeEvent → Nat → List VibeEvent →
    Nat × List VibeEvent
  | [], n, store => (n, store)
  | e :: rest, n, store =>
    if store.any (fun r => conflictsWith r e) then insertLoop rest n store
    else insertLoop rest (n + 1) (store ++ [e])

/-- The result reported by `insertEvents` plus the store it leaves behind. -/
structure InsertOutcome where
  inserted : Nat
  skipped : Nat
  store : List VibeEvent
deriving DecidableEq, Repr

/-- `insertEvents` of `db.ts`: one transaction of `INSERT OR IGNORE`
statements, reporting `inserted` and `skipped = events.length - inserted`. -/
def insertEvents (store : List VibeEvent) (events : List VibeEvent) :
    InsertOutcome :=
  let p := insertLoop events 0 store
  { inserted := p.1, skipped := events.length - p.1, store := p.2 }

/-! ### Store lemmas -/

lemma conflictsWith_self (e : VibeEvent) : conflictsWith e e = true := by
  simp [conflictsWith]

lemma conflictsWith_eq_true {r e : VibeEvent} :
    conflictsWith r e = true ↔ (r.id = e.id ∨ dedupKey r = dedupKey e) := by
  simp [conflictsWith]

lemma conflictsWith_eq_false {r e : VibeEvent} :
    conflictsWith r e = false ↔ (r.id ≠ e.id ∧ dedupKey r ≠ dedupKey e) := by
  simp [conflictsWith]

lemma insertLoop_mem (es : List VibeEvent) (n : Nat) (store : List VibeEvent)
    {r : VibeEvent} (h : r ∈ store) : r ∈ (insertLoop es n store).2 := by
  induction es generalizing n store with
  | nil => simpa [insertLoop]
  | cons e rest ih =>
    simp only [insertLoop]
    split
    · exact ih n store h
    · exact ih (n + 1) (store ++ [e]) (by simp [h])

lemma insertLoop_covers (es : List VibeEvent) (n : Nat)
    (store : List VibeEvent) :
    ∀ e ∈ es, ∃ r ∈ (insertLoop es n store).2, conflictsWith r e = true := by
  induction es generalizing n store with
  | nil => simp
  | cons a rest ih =>
    intro e he
    rcases List.mem_cons.mp he with rfl | hmem
    · simp only [insertLoop]
      split
      · next hC =>
        obtain ⟨r, hr, hc⟩ := List.any_eq_true.mp hC
        exact ⟨r, insertLoop_mem rest n store hr, hc⟩
      · exact ⟨e, insertLoop_mem rest (n + 1) (store ++ [e]) (by simp),
          conflictsWith_self e⟩
    · simp only [insertLoop]
      split
      · exact ih n store e hmem
      · exact ih (n + 1) (store ++ [a]) e hmem

lemma insertLoop_skip_all (es : List VibeEvent) (n : Nat)
    (store : List VibeEvent)
    (h : ∀ e ∈ es, ∃ r ∈ store, conflictsWith r e = true) :
    insertLoop es n store = (n, store) := by
  induction es generalizing n with
  | nil => simp [insertLoop]
  | cons a rest ih =>
    have ha : store.any (fun r => conflictsWith r a) = true := by
      obtain ⟨r, hr, hc⟩ := h a (by simp)
      exact List.any_eq_true.mpr ⟨r, hr, hc⟩
    simp only [insertLoop, ha, if_pos]
    exact ih n (fun e he => h e (by simp [he]))

lemma insertLoop_insert_all (es : List VibeEvent) (n : Nat)
    (store : List VibeEvent)
    (hp : es.Pairwise (fun a b => conflictsWith a b = false))
    (hs : ∀ e ∈ es, ∀ r ∈ store, conflictsWith r e = false) :
    insertLoop es n store = (n + es.length, store ++ es) := by
  induction es generalizing n store with
  | nil => simp [insertLoop]
  | cons a rest ih =>
    have ha : store.any (fun r => conflictsWith r a) = false := by
      rw [List.any_eq_false]
      intro r hr
      simp [hs a (by simp) r hr]
    simp only [insertLoop, ha]
    rw [if_neg (by simp)]
    have hp' := (List.pairwise_cons.mp hp).2
    have hhead := (List.pairwise_cons.mp hp).1
    rw [ih (n + 1) (store ++ [a]) hp'
      (fun e he r hr => by
        rcases List.mem_append.mp hr with hr' | hr'
        · exact hs e (by simp [he]) r hr'
        · rw [List.mem_singleton.mp hr']
          exact hhead e he)]
    simp only [Prod.mk.injEq, List.length_cons, List.append_assoc,
      List.singleton_append]
    exact ⟨by omega, trivial⟩

/-- C2: the store's insert reports `skipped = batchSize - inserted`, and a
second insert of the same batch is a no-op: it inserts nothing, skips the
whole batch, and leaves every stored row unchanged (conflicting rows are
skipped, never overwritten); the model is a total function, so no error is
raised. -/
theorem insertEvents_idempotent (store batch : List VibeEvent) :
    (insertEvents store batch).skipped
        = batch.length - (insertEvents store batch).inserted
    ∧ (insertEvents (insertEvents store batch).store batch).inserted = 0
    ∧ (insertEvents (insertEvents store batch).store batch).skipped
        = batch.length
    ∧ (insertEvents (insertEvents store batch).store batch).store
        = (insertEvents store batch).store := by
  refine ⟨rfl, ?_, ?_, ?_⟩ <;>
  · have hcov := insertLoop_covers batch 0 store
    have hskip := insertLoop_skip_all batch 0 (insertLoop batch 0 store).2
      (fun e he => hcov e he)
    simp [insertEvents, hskip]

/-- C10: the dedup key is exactly
`(session_id, timestamp, event_type, tool_name_raw ?? '', tool_input ?? '')`:
two events agreeing on it collide — the second is silently skipped and not
stored, whatever their other columns (source, user_id, …) hold — while two
events differing on it (with distinct generated ids) are both stored. -/
theorem dedup_key_exact (e1 e2 : VibeEvent) :
    (dedupKey e1 = dedupKey e2 →
      (insertEvents [] [e1, e2]).inserted = 1 ∧
      (insertEvents [] [e1, e2]).skipped = 1 ∧
      (insertEvents [] [e1, e2]).store = [e1])
    ∧ (dedupKey e1 ≠ dedupKey e2 → e1.id ≠ e2.id →
      (insertEvents [] [e1, e2]).inserted = 2 ∧
      (insertEvents [] [e1, e2]).skipped = 0 ∧
      (insertEvents [] [e1, e2]).store = [e1, e2]) := by
  constructor
  · intro h
    have hc : conflictsWith e1 e2 = true :=
      conflictsWith_eq_true.mpr (Or.inr h)
    simp [insertEvents, insertLoop, hc]
  · intro h1 h2
    have hc : conflictsWith e1 e2 = false :=
      conflictsWith_eq_false.mpr ⟨h2, h1⟩
    simp [insertEvents, insertLoop, hc]

/-! ### Mapper lemmas -/

lemma mapEventsFrom_length (mkId : Nat → String) (n : Nat)
    (source : AgentSource) (config : Config) (repo : Option String)
    (es : List ParsedEvent) :
    (mapEventsFrom mkId n source config repo es).length = es.length := by
  induction es generalizing n with
  | nil => rfl
  | cons e rest ih => simp [mapEventsFrom, ih]

lemma mapEventsFrom_map_id (mkId : Nat → String) (n : Nat)
    (source : AgentSource) (config : Config) (repo : Option String)
    (es : List ParsedEvent) :
    (mapEventsFrom mkId n source config repo es).map VibeEvent.id
      = (List.range' n es.length).map mkId := by
  induction es generalizing n with
  | nil => rfl
  | cons e rest ih =>
    simp [mapEventsFrom, List.range'_succ, ih, mapEventToVibeEvent]

lemma mapEventsFrom_map_dkey (mkId : Nat → String) (n : Nat)
    (source : AgentSource) (config : Config) (repo : Option String)
    (es : List ParsedEvent) :
    (mapEventsFrom mkId n source config repo es).map dedupKey
      = es.map eventDedupKey := by
  induction es generalizing n with
  | nil => rfl
  | cons e rest ih =>
    simp only [mapEventsFrom, List.map_cons, ih]
    rfl

lemma mapToVibeEvents_length (repoOf : String → Option String)
    (mkId : Nat → String) (parsed : ParsedTranscript) (config : Config) :
    (mapToVibeEvents repoOf mkId parsed config).length
      = parsed.events.length := by
  simp [mapToVibeEvents, mapEventsFrom_length]

lemma mapToVibeEvents_map_dkey (repoOf : String → Option String)
    (mkId : Nat → String) (parsed : ParsedTranscript) (config : Config) :
    (mapToVibeEvents repoOf mkId parsed config).map dedupKey
      = parsed.events.map eventDedupKey := by
  simp [mapToVibeEvents, mapEventsFrom_map_dkey]

lemma mapToVibeEvents_ids_nodup (repoOf : String → Option String)
    (mkId : Nat → String) (parsed : ParsedTranscript) (config : Config)
    (hinj : Function.Injective mkId) :
    ((mapToVibeEvents repoOf mkId parsed config).map VibeEvent.id).Nodup := by
  unfold mapToVibeEvents
  rw [mapEventsFrom_map_id]
  exact (List.nodup_range' _ _).map hinj

/-- The full ingestion pipeline for a Claude transcript: parse, map with the
identity configuration and id supply, insert into the store. -/
def runClaudePipeline (hook : Option ClaudeHookPayload)
    (entries : List ClaudeEntry) (config : Config)
    (repoOf : String → Option String) (mkId : Nat → String)
    (store : List VibeEvent) : InsertOutcome :=
  insertEvents store
    (mapToVibeEvents repoOf mkId (parseClaudeEntries hook entries) config)

/-- C1 (amended): with fresh (injective) ids and a transcript whose events
have pairwise distinct dedup keys, the first pipeline run against an empty
store inserts all N events and skips none; re-running the pipeline on the
identical transcript — with an arbitrary (fresh or not) id supply and repo
resolution — inserts nothing and skips all N, because the dedup key is
copied from the parsed events and ignores the generated id. -/
theorem ingest_twice_dedup_amended (hook : Option ClaudeHookPayload)
    (entries : List ClaudeEntry) (config : Config)
    (repoOf repoOf2 : String → Option String) (mkId mkId2 : Nat → String)
    (hinj : Function.Injective mkId)
    (hkeys : ((parseClaudeEntries hook entries).events.map eventDedupKey).Nodup) :
    (runClaudePipeline hook entries config repoOf mkId []).inserted
        = (parseClaudeEntries hook entries).events.length
    ∧ (runClaudePipeline hook entries config repoOf mkId []).skipped = 0
    ∧ (runClaudePipeline hook entries config repoOf2 mkId2
        ((runClaudePipeline hook entries config repoOf mkId []).store)).inserted
        = 0
    ∧ (runClaudePipeline hook entries config repoOf2 mkId2
        ((runClaudePipeline hook entries config repoOf mkId []).store)).skipped
        = (parseClaudeEntries hook entries).events.length := by
  have parsed := parseClaudeEntries hook entries
  set batch := mapToVibeEvents repoOf mkId (parseClaudeEntries hook entries)
    config with hbatch
  set batch2 := mapToVibeEvents repoOf2 mkId2 (parseClaudeEntries hook entries)
    config with hbatch2
  have hlen : batch.length = (parseClaudeEntries hook entries).events.length :=
    mapToVibeEvents_length _ _ _ _
  have hlen2 : batch2.length = (parseClaudeEntries hook entries).events.length :=
    mapToVibeEvents_length _ _ _ _
  have hids : (batch.map VibeEvent.id).Nodup :=
    mapToVibeEvents_ids_nodup _ _ _ _ hinj
  have hkeys1 : (batch.map dedupKey).Nodup := by
    rw [hbatch, mapToVibeEvents_map_dkey]; exact hkeys
  have hpid : batch.Pairwise (fun a b => a.id ≠ b.id) :=
    List.pairwise_map.mp hids
  have hpk : batch.Pairwise (fun a b => dedupKey a ≠ dedupKey b) :=
    List.pairwise_map.mp hkeys1
  have hpw : batch.Pairwise (fun a b => conflictsWith a b = false) :=
    (hpid.and hpk).imp (fun h => conflictsWith_eq_false.mpr h)
  have hfirst : insertLoop batch 0 [] = (0 + batch.length, [] ++ batch) :=
    insertLoop_insert_all batch 0 [] hpw (by simp)
  have hkeq : batch2.map dedupKey = batch.map dedupKey := by
    rw [hbatch, hbatch2, mapToVibeEvents_map_dkey, mapToVibeEvents_map_dkey]
  have hcov : ∀ e ∈ batch2, ∃ r ∈ batch, conflictsWith r e = true := by
    intro e he
    have hmem : dedupKey e ∈ batch2.map dedupKey := List.mem_map_of_mem _ he
    rw [hkeq] at hmem
    obtain ⟨r, hr, hre⟩ := List.mem_map.mp hmem
    exact ⟨r, hr, conflictsWith_eq_true.mpr (Or.inr hre)⟩
  have hsecond : insertLoop batch2 0 batch = (0, batch) :=
    insertLoop_skip_all batch2 0 batch hcov
  refine ⟨?_, ?_, ?_, ?_⟩ <;>
    simp [runClaudePipeline, insertEvents, hfirst, hsecond, hlen, hlen2]

/-! ### Concrete transcript fixtures -/

/-- A plain user prompt entry. -/
def userEntry : ClaudeEntry :=
  { type := "user", timestamp := some "2024-01-15T10:00:00Z",
    sessionId := some "sess-abc", uuid := "uuid-1",
    message := some { role := "user", content := CContent.str "Read a file" } }

/-- An assistant entry whose message holds two identical `Read` tool-use
blocks (the same tool invoked twice with the same arguments in one turn). -/
def dupReadEntry : ClaudeEntry :=
  { type := "assistant", timestamp := some "2024-01-15T10:00:01Z",
    sessionId := some "sess-abc", uuid := "uuid-2",
    message := some
      { role := "assistant"
        content := CContent.blocks
          [CBlock.tool_use "Read" [("file_path", JVal.str "/a.ts")],
           CBlock.tool_use "Read" [("file_path", JVal.str "/a.ts")]] } }

/-- The identity configuration used by the concrete runs. -/
def cfg0 : Config := { user_id := "user-1", team_id := some "team-1" }

/-- A concrete injective id supply (stands for one pass of fresh UUIDv7s). -/
def wMkId (n : Nat) : String := String.mk (List.replicate n 'x')

/-- A second, different id supply (the re-ingestion pass generates fresh
ids). -/
def wMkId2 (n : Nat) : String := String.mk (List.replicate n 'y')

lemma wMkId_inj : Function.Injective wMkId := by
  intro a b h
  have h2 := congrArg (fun s => s.data.length) h
  simpa [wMkId] using h2

/-- C1 (counterexample): on the transcript [user prompt; assistant message
with two identical `Read` tool calls] the adapter produces N = 6 events, but
the very first insert into an empty store already reports
`inserted = 5, skipped = 1`: the two `tool_call` events of the turn carry
the same session, timestamp, event type, raw tool name and serialized input,
so they collide on the dedup key inside one batch.  The claim's promised
first-run result `inserted = N, skipped = 0` is therefore false. -/
theorem ingest_twice_first_pass_cex :
    (parseClaudeEntries none [userEntry, dupReadEntry]).events.length = 6
    ∧ (runClaudePipeline none [userEntry, dupReadEntry] cfg0
        (fun _ => none) wMkId []).inserted = 5
    ∧ (runClaudePipeline none [userEntry, dupReadEntry] cfg0
        (fun _ => none) wMkId []).skipped = 1 := by
  refine ⟨by decide, by decide, by decide⟩

/-- C1 (witness): the amended theorem applied to a one-prompt transcript
whose three events have pairwise distinct dedup keys. -/
theorem ingest_twice_dedup_amended_witness :
    (runClaudePipeline none [userEntry] cfg0 (fun _ => none) wMkId []).inserted
        = (parseClaudeEntries none [userEntry]).events.length
    ∧ (runClaudePipeline none [userEntry] cfg0 (fun _ => none) wMkId []).skipped
        = 0
    ∧ (runClaudePipeline none [userEntry] cfg0 (fun _ => none) wMkId2
        ((runClaudePipeline none [userEntry] cfg0 (fun _ => none) wMkId
          []).store)).inserted = 0
    ∧ (runClaudePipeline none [userEntry] cfg0 (fun _ => none) wMkId2
        ((runClaudePipeline none [userEntry] cfg0 (fun _ => none) wMkId
          []).store)).skipped
        = (parseClaudeEntries none [userEntry]).events.length :=
  ingest_twice_dedup_amended none [userEntry] cfg0 (fun _ => none)
    (fun _ => none) wMkId wMkId2 wMkId_inj (by decide)

/-- Two stored events agreeing on every dedup-key column but ingested with a
different source and user: the collision is decided by the key alone. -/
def dupKeyEventA : VibeEvent :=
  { id := "id-a", timestamp := "2024-01-15T10:00:00Z", user_id := "user-1",
    session_id := "sess-abc", event_type := EventType.tool_call,
    source := AgentSource.claude_code, tool_name_raw := some "Read",
    tool_input := some "/a.ts", prompt_text := some "first" }

/-- The same dedup key as `dupKeyEventA`, every excluded column different. -/
def dupKeyEventB : VibeEvent :=
  { id := "id-b", timestamp := "2024-01-15T10:00:00Z", user_id := "user-2",
    session_id := "sess-abc", event_type := EventType.tool_call,
    source := AgentSource.cursor, tool_name_raw := some "Read",
    tool_input := some "/a.ts", prompt_text := some "second",
    team_id := some "team-2" }

/-- C10 (witness): the theorem applied to two concrete events that agree on
the five key columns yet differ in source, user_id, team_id and prompt_text:
the second is skipped and not stored. -/
theorem dedup_key_exact_witness :
    (insertEvents [] [dupKeyEventA, dupKeyEventB]).inserted = 1
    ∧ (insertEvents [] [dupKeyEventA, dupKeyEventB]).skipped = 1
    ∧ (insertEvents [] [dupKeyEventA, dupKeyEventB]).store = [dupKeyEventA] :=
  (dedup_key_exact dupKeyEventA dupKeyEventB).1 (by decide)

/-- C9 (counterexample): `toString` is absent from the Claude table — an
unmapped raw name — yet `CLAUDE_TOOL_MAP['toString']` finds the inherited
`Object.prototype.toString`, which is not nullish, so `?? 'other'` never
fires: the normalizer returns the leaked prototype member, not `other` (and
not any canonical tool name). -/
theorem normalize_proto_leak_cex :
    CLAUDE_TOOL_MAP.lookup "toString" = none
    ∧ normalizeToolName "toString" "claude_code"
        = NormalizeResult.protoLeak "toString"
    ∧ normalizeToolName "toString" "claude_code"
        ≠ NormalizeResult.tool ToolName.other := by
  refine ⟨by decide, by decide, by decide⟩

/-- C9 (amended): the normalizer is total (never throws, being a total
function) and, for a raw name carried by the given source's table, returns
that table's entry; an absent raw name falls back to `other` only when it is
also none of the dozen property names inherited from `Object.prototype` —
for those the inherited member leaks through the nullish coalescing instead;
a source without a table always yields `other`. -/
theorem normalizeToolName_table_amended (rawName source : String) :
    (∀ t, (sourceToolMap source).lookup rawName = some t →
        normalizeToolName rawName source = NormalizeResult.tool t)
    ∧ ((sourceToolMap source).lookup rawName = none →
        rawName ∉ OBJECT_PROTOTYPE_KEYS →
        normalizeToolName rawName source = NormalizeResult.tool ToolName.other)
    ∧ ((sourceToolMap source).lookup rawName = none →
        rawName ∈ OBJECT_PROTOTYPE_KEYS →
        (source = "claude_code" ∨ source = "codex" ∨ source = "gemini") →
        normalizeToolName rawName source = NormalizeResult.protoLeak rawName)
    ∧ (source ≠ "claude_code" → source ≠ "codex" → source ≠ "gemini" →
        normalizeToolName rawName source = NormalizeResult.tool ToolName.other) := by
  unfold normalizeToolName sourceToolMap
  split_ifs with h1 h2 h3
  · refine ⟨?_, ?_, ?_, ?_⟩
    · intro t hl
      simp [recordGet, jsCoalesce, hl]
    · intro hl hm
      simp [recordGet, jsCoalesce, hl, hm]
    · intro hl hm _
      simp [recordGet, jsCoalesce, hl, hm]
    · intro ha _ _
      exact absurd h1 ha
  · refine ⟨?_, ?_, ?_, ?_⟩
    · intro t hl
      simp [recordGet, jsCoalesce, hl]
    · intro hl hm
      simp [recordGet, jsCoalesce, hl, hm]
    · intro hl hm _
      simp [recordGet, jsCoalesce, hl, hm]
    · intro _ hb _
      exact absurd h2 hb
  · refine ⟨?_, ?_, ?_, ?_⟩
    · intro t hl
      simp [recordGet, jsCoalesce, hl]
    · intro hl hm
      simp [recordGet, jsCoalesce, hl, hm]
    · intro hl hm _
      simp [recordGet, jsCoalesce, hl, hm]
    · intro _ _ hc
      exact absurd h3 hc
  · refine ⟨?_, ?_, ?_, ?_⟩
    · intro t hl
      simp at hl
    · intro _ _
      rfl
    · intro _ _ hsrc
      rcases hsrc with hsrc | hsrc | hsrc
      · exact absurd hsrc h1
      · exact absurd hsrc h2
      · exact absurd hsrc h3
    · intro _ _ _
      rfl

/-- First streaming chunk: cumulative input tokens 5. -/
def chunkFive : ClaudeEntry :=
  { type := "assistant", timestamp := some "2024-01-15T10:00:01Z",
    sessionId := some "sess-abc", uuid := "uuid-2",
    message := some
      { role := "assistant"
        content := CContent.blocks [CBlock.text "Hello"]
        usage := some { input_tokens := some 5, output_tokens := some 1 } } }

/-- Second streaming chunk under the same line uuid: cumulative input tokens
8. -/
def chunkEightSameUuid : ClaudeEntry :=
  { type := "assistant", timestamp := some "2024-01-15T10:00:02Z",
    sessionId := some "sess-abc", uuid := "uuid-2",
    message := some
      { role := "assistant"
        content := CContent.blocks [CBlock.text "Hello, world!"]
        usage := some { input_tokens := some 8, output_tokens := some 3 } } }

/-- The same second chunk carried on a line of its own uuid. -/
def chunkEightFreshUuid : ClaudeEntry :=
  { chunkEightSameUuid with uuid := "uuid-3" }

/-- C3 (counterexample): when the two assistant chunks share one uuid — the
only message identifier the adapter tracks — the second chunk is skipped by
the seen-uuid check before its usage is read, so the single `turn_end`
reports `prompt_tokens = 5` (the first chunk's value), not the claimed
maximum 8. -/
theorem streaming_same_uuid_tokens_cex :
    ((parseClaudeEntries none
        [userEntry, chunkFive, chunkEightSameUuid]).events.filter
      (fun e => e.event_type = EventType.turn_end)).map
        ParsedEvent.prompt_tokens = [some 5]
    ∧ (some 5 : Option Nat) ≠ some 8 := by
  refine ⟨by decide, by decide⟩

/-- C3 (amended): duplicate-uuid chunks are dropped whole, so their tokens
are the first chunk's; the claimed max-accumulation applies to successive
chunks of the same turn with distinct line uuids — there, a user prompt
followed by chunks reporting cumulative 5 and then 8 yields exactly one
`turn_end` with `prompt_tokens = max 5 8 = 8`, never the sum 13. -/
theorem streaming_chunk_tokens_amended :
    ((parseClaudeEntries none
        [userEntry, chunkFive, chunkEightFreshUuid]).events.filter
      (fun e => e.event_type = EventType.turn_end)).map
        ParsedEvent.prompt_tokens = [some 8]
    ∧ ((parseClaudeEntries none
        [userEntry, chunkFive, chunkEightSameUuid]).events.filter
      (fun e => e.event_type = EventType.turn_end)).map
        ParsedEvent.prompt_tokens = [some 5] := by
  refine ⟨by decide, by decide⟩

/-- The assistant entry answering the prompt with a `Read` tool call. -/
def readToolEntry : ClaudeEntry :=
  { type := "assistant", timestamp := some "2024-01-15T10:00:01Z",
    sessionId := some "sess-abc", uuid := "uuid-2",
    message := some
      { role := "assistant"
        content := CContent.blocks
          [CBlock.tool_use "Read" [("file_path", JVal.str "/test.ts")]] } }

/-- A user-type entry whose content is exclusively a tool-result block. -/
def toolResultEntry : ClaudeEntry :=
  { type := "user", timestamp := some "2024-01-15T10:00:02Z",
    sessionId := some "sess-abc", uuid := "uuid-3",
    message := some
      { role := "user", content := CContent.blocks [CBlock.tool_result] } }

/-- The closing assistant text entry. -/
def finalTextEntry : ClaudeEntry :=
  { type := "assistant", timestamp := some "2024-01-15T10:00:03Z",
    sessionId := some "sess-abc", uuid := "uuid-4",
    message := some
      { role := "assistant"
        content := CContent.blocks [CBlock.text "I read the file"] } }

/-- C4 (code bug): the Claude adapter's user branch pushes a `prompt` event
unconditionally, so the tool-result-only user entry yields a second prompt
(with empty text) — the transcript that the repository's own test expects to
produce exactly one prompt produces two.  The Cursor adapter checks for
tool-result blocks and emits none. -/
theorem tool_result_prompt_code_bug :
    ((parseClaudeEntries none
        [userEntry, readToolEntry, toolResultEntry, finalTextEntry]).events.filter
      (fun e => e.event_type = EventType.prompt)).map
        ParsedEvent.prompt_text = [some "Read a file", none] := by
  decide

/-! ### Line counting -/

lemma splitNl_ne_nil (l : List Char) : splitNl l ≠ [] := by
  cases l with
  | nil => simp [splitNl]
  | cons c rest =>
    simp only [splitNl]
    split
    · simp
    · split <;> simp

lemma splitNl_length (l : List Char) :
    (splitNl l).length = l.count '\n' + 1 := by
  induction l with
  | nil => simp [splitNl]
  | cons c rest ih =>
    by_cases hc : c = '\n'
    · subst hc
      simp [splitNl, ih, List.count_cons]
    · simp only [splitNl, if_neg hc]
      cases h : splitNl rest with
      | nil => exact absurd h (splitNl_ne_nil rest)
      | cons a t =>
        rw [h] at ih
        simp only [List.length_cons] at ih ⊢
        rw [List.count_cons]
        simp [hc, ih]

/-- The `Write` tool call of the worked example: 3 lines of content. -/
def writeInput : ToolInput :=
  [("file_path", JVal.str "/w.ts"), ("content", JVal.str "a\nb\nc")]

/-- The `Edit` tool call of the worked example: 2 old lines, 3 new lines. -/
def editInput : ToolInput :=
  [("file_path", JVal.str "/e.ts"), ("old_string", JVal.str "x\ny"),
   ("new_string", JVal.str "p\nq\nr")]

/-- The assistant entry invoking `Write` and `Edit` in one turn. -/
def writeEditEntry : ClaudeEntry :=
  { type := "assistant", timestamp := some "2024-01-15T10:00:01Z",
    sessionId := some "sess-abc", uuid := "uuid-2",
    message := some
      { role := "assistant"
        content := CContent.blocks
          [CBlock.tool_use "Write" writeInput,
           CBlock.tool_use "Edit" editInput] } }

/-- C8: the line-delta heuristic.  On non-empty text `countLines` is the
newline count plus one; a `Write` call with 3 lines of content yields
`file_action = update`, `file_lines_added = 3` and no `file_lines_removed`;
an `Edit` call with a 2-line `old_string` and a 3-line `new_string` yields
`file_action = update`, `file_lines_removed = 2`, `file_lines_added = 3` —
both through the extractor and through the full adapter run as `tool_call`
events. -/
theorem file_line_deltas :
    (∀ s : String, s ≠ "" → countLines s = s.data.count '\n' + 1)
    ∧ extractFileInfo "Write" writeInput
        = { file_path := some "/w.ts", file_action := some FileAction.update,
            file_lines_added := some 3 }
    ∧ extractFileInfo "Edit" editInput
        = { file_path := some "/e.ts", file_action := some FileAction.update,
            file_lines_added := some 3, file_lines_removed := some 2 }
    ∧ ((parseClaudeEntries none [userEntry, writeEditEntry]).events.filter
        (fun e => e.event_type = EventType.tool_call)).map
          (fun e => (e.tool_name_raw, e.file_action, e.file_lines_added,
            e.file_lines_removed))
        = [(some "Write", some FileAction.update, some 3, none),
           (some "Edit", some FileAction.update, some 3, some 2)] := by
  refine ⟨?_, by decide, by decide, by decide⟩
  intro s hs
  rw [countLines, if_neg hs, splitNl_length]

/-! ### Malformed-line handling -/

/-- The well-formed lines of a Cursor transcript. -/
def goodCursorLines (lines : List CursorLine) : List CursorLine :=
  lines.filter (fun l =>
    match l with
    | CursorLine.ok _ => true
    | CursorLine.bad => false)

lemma cursorFold_skip_bad (hook : Option CursorHookPayload)
    (cwd0 : Option String) (lines : List CursorLine) (s : CuState) :
    lines.foldl
      (fun s l =>
        match l with
        | CursorLine.ok e => custep hook cwd0 s e
        | CursorLine.bad => s) s
    = (goodCursorLines lines).foldl
      (fun s l =>
        match l with
        | CursorLine.ok e => custep hook cwd0 s e
        | CursorLine.bad => s) s := by
  induction lines generalizing s with
  | nil => rfl
  | cons l rest ih =>
    cases l with
    | ok e => simp [goodCursorLines, List.filter_cons, ih]
    | bad => simp [goodCursorLines, List.filter_cons, ih]

lemma decodeClaudeLines_bad {lines : List ClaudeLine}
    (h : ClaudeLine.bad ∈ lines) : decodeClaudeLines lines = none := by
  induction lines with
  | nil => cases h
  | cons l rest ih =>
    cases l with
    | ok e =>
      have : ClaudeLine.bad ∈ rest := by
        rcases List.mem_cons.mp h with h' | h'
        · cases h'
        · exact h'
      simp [decodeClaudeLines, ih this]
    | bad => simp [decodeClaudeLines]

/-- C6 (amended): only the Cursor adapter recovers from a malformed line —
its parse of any raw line list equals the parse of the well-formed lines
alone, so a bad line is skipped and processing continues.  The Claude
adapter (like the Codex one) runs `JSON.parse` unguarded: any malformed line
aborts the whole run instead of being skipped. -/
theorem malformed_line_amended (chook : Option CursorHookPayload)
    (clines : List CursorLine) (hook : Option ClaudeHookPayload)
    (lines : List ClaudeLine) :
    parseCursorTranscript chook clines
        = parseCursorTranscript chook (goodCursorLines clines)
    ∧ (ClaudeLine.bad ∈ lines → parseClaudeTranscript hook lines = none) := by
  constructor
  · unfold parseCursorTranscript
    dsimp only
    rw [cursorFold_skip_bad]
  · intro h
    unfold parseClaudeTranscript
    rw [decodeClaudeLines_bad h]
    rfl

/-- C6 (counterexample): a Claude transcript holding one well-formed user
line and one malformed line parses to nothing at all — the run fails — while
the well-formed line alone parses fine; the malformed line is not skipped
and the surviving events are not returned. -/
theorem malformed_line_claude_cex :
    parseClaudeTranscript none [ClaudeLine.ok userEntry, ClaudeLine.bad] = none
    ∧ parseClaudeTranscript none [ClaudeLine.ok userEntry] ≠ none
    ∧ (parseClaudeTranscript none [ClaudeLine.ok userEntry]).map
        (fun p => p.events.length) = some 3 := by
  refine ⟨by decide, by decide, by decide⟩

/-! ### Session bracketing: state-field lemmas -/

lemma opt_orElse_assoc {α : Type} (a b c : Option α) :
    ((a <|> b) <|> c) = (a <|> (b <|> c)) := by
  cases a <;> simp

lemma flushTurn_firstTimestamp (s : CState) :
    (flushTurn s).firstTimestamp = s.firstTimestamp := by
  unfold flushTurn; split <;> rfl

lemma flushTurn_lastTimestamp (s : CState) :
    (flushTurn s).lastTimestamp = s.lastTimestamp := by
  unfold flushTurn; split <;> rfl

lemma flushTurn_sessionId (s : CState) :
    (flushTurn s).sessionId = s.sessionId := by
  unfold flushTurn; split <;> rfl

lemma flushTurn_sessionCwd (s : CState) :
    (flushTurn s).sessionCwd = s.sessionCwd := by
  unfold flushTurn; split <;> rfl

lemma flushTurn_sessionGitBranch (s : CState) :
    (flushTurn s).sessionGitBranch = s.sessionGitBranch := by
  unfold flushTurn; split <;> rfl

lemma absorbAssistant_firstTimestamp (s : CState) (ets : String)
    (m : CMessage) :
    (absorbAssistant s ets m).firstTimestamp = s.firstTimestamp := by
  unfold absorbAssistant; split
  · rfl
  · cases m.usage <;> rfl

lemma absorbAssistant_lastTimestamp (s : CState) (ets : String)
    (m : CMessage) :
    (absorbAssistant s ets m).lastTimestamp = s.lastTimestamp := by
  unfold absorbAssistant; split
  · rfl
  · cases m.usage <;> rfl

lemma absorbAssistant_sessionId (s : CState) (ets : String) (m : CMessage) :
    (absorbAssistant s ets m).sessionId = s.sessionId := by
  unfold absorbAssistant; split
  · rfl
  · cases m.usage <;> rfl

lemma absorbAssistant_events (s : CState) (ets : String) (m : CMessage) :
    (absorbAssistant s ets m).events = s.events := by
  unfold absorbAssistant; split
  · rfl
  · cases m.usage <;> rfl

lemma absorbAssistant_turnIndex (s : CState) (ets : String) (m : CMessage) :
    (absorbAssistant s ets m).turnIndex = s.turnIndex := by
  unfold absorbAssistant; split
  · rfl
  · cases m.usage <;> rfl

/-- Was this entry observed (both `sessionId` and `timestamp` present)?  The
loop skips everything else before touching any state. -/
def observedEntry (e : ClaudeEntry) : Bool :=
  e.sessionId.isSome && e.timestamp.isSome

/-- The observed entries of a transcript, in order. -/
def obsEntries (entries : List ClaudeEntry) : List ClaudeEntry :=
  entries.filter observedEntry

lemma cstep_firstTimestamp (s : CState) (e : ClaudeEntry) :
    (cstep s e).firstTimestamp =
      if observedEntry e then s.firstTimestamp <|> e.timestamp
      else s.firstTimestamp := by
  unfold cstep observedEntry
  cases hs : e.sessionId <;> cases ht : e.timestamp <;> simp
  split
  · simp [pushPrompt, flushTurn_firstTimestamp]
  · split
    · split
      · rfl
      · cases e.message with
        | none => rfl
        | some m => simp [absorbAssistant_firstTimestamp]
    · rfl

lemma cstep_lastTimestamp (s : CState) (e : ClaudeEntry) :
    (cstep s e).lastTimestamp =
      if observedEntry e then e.timestamp else s.lastTimestamp := by
  unfold cstep observedEntry
  cases hs : e.sessionId <;> cases ht : e.timestamp <;> simp
  split
  · simp [pushPrompt, flushTurn_lastTimestamp]
  · split
    · split
      · rfl
      · cases e.message with
        | none => rfl
        | some m => simp [absorbAssistant_lastTimestamp]
    · rfl

lemma cstep_sessionId (s : CState) (e : ClaudeEntry) :
    (cstep s e).sessionId =
      if observedEntry e then s.sessionId <|> e.sessionId
      else s.sessionId := by
  unfold cstep observedEntry
  cases hs : e.sessionId <;> cases ht : e.timestamp <;> simp
  split
  · simp [pushPrompt, flushTurn_sessionId]
  · split
    · split
      · rfl
      · cases e.message with
        | none => rfl
        | some m => simp [absorbAssistant_sessionId]
    · rfl

lemma observed_timestamp {e : ClaudeEntry} (h : observedEntry e = true) :
    ∃ t, e.timestamp = some t := by
  unfold observedEntry at h
  rw [Bool.and_eq_true] at h
  exact Option.isSome_iff_exists.mp h.2

lemma observed_sessionId {e : ClaudeEntry} (h : observedEntry e = true) :
    ∃ sid, e.sessionId = some sid := by
  unfold observedEntry at h
  rw [Bool.and_eq_true] at h
  exact Option.isSome_iff_exists.mp h.1

lemma foldl_firstTimestamp (entries : List ClaudeEntry) (s : CState) :
    (entries.foldl cstep s).firstTimestamp
      = (s.firstTimestamp <|>
          ((obsEntries entries).head?.bind ClaudeEntry.timestamp)) := by
  induction entries generalizing s with
  | nil => simp [obsEntries]
  | cons e rest ih =>
    simp only [List.foldl_cons]
    rw [ih]
    by_cases ho : observedEntry e = true
    · obtain ⟨t, ht⟩ := observed_timestamp ho
      rw [cstep_firstTimestamp, if_pos ho, ht]
      simp [obsEntries, List.filter_cons, ho, ht, opt_orElse_assoc]
    · rw [cstep_firstTimestamp, if_neg ho]
      simp [obsEntries, List.filter_cons, Bool.of_not_eq_true ho]

lemma foldl_sessionId (entries : List ClaudeEntry) (s : CState) :
    (entries.foldl cstep s).sessionId
      = (s.sessionId <|>
          ((obsEntries entries).head?.bind ClaudeEntry.sessionId)) := by
  induction entries generalizing s with
  | nil => simp [obsEntries]
  | cons e rest ih =>
    simp only [List.foldl_cons]
    rw [ih]
    by_cases ho : observedEntry e = true
    · obtain ⟨sid, hsid⟩ := observed_sessionId ho
      rw [cstep_sessionId, if_pos ho, hsid]
      simp [obsEntries, List.filter_cons, ho, hsid, opt_orElse_assoc]
    · rw [cstep_sessionId, if_neg ho]
      simp [obsEntries, List.filter_cons, Bool.of_not_eq_true ho]

lemma obs_mem_observed {entries : List ClaudeEntry} {e : ClaudeEntry}
    (h : e ∈ obsEntries entries) : observedEntry e = true :=
  (List.mem_filter.mp h).2

lemma foldl_lastTimestamp (entries : List ClaudeEntry) (s : CState) :
    (entries.foldl cstep s).lastTimestamp
      = (((obsEntries entries).getLast?.bind ClaudeEntry.timestamp) <|>
          s.lastTimestamp) := by
  induction entries generalizing s with
  | nil => simp [obsEntries]
  | cons e rest ih =>
    simp only [List.foldl_cons]
    rw [ih]
    by_cases ho : observedEntry e = true
    · obtain ⟨t, ht⟩ := observed_timestamp ho
      have hobs : obsEntries (e :: rest) = e :: obsEntries rest := by
        simp [obsEntries, List.filter_cons, ho]
      rw [hobs]
      cases hr : obsEntries rest with
      | nil =>
        rw [cstep_lastTimestamp, if_pos ho]
        simp [ht]
      | cons b l =>
        rw [List.getLast?_cons_cons]
        have hbmem : (b :: l).getLast?.isSome := by
          cases hgl : (b :: l).getLast? with
          | none => simp [List.getLast?_eq_none_iff] at hgl
          | some x => rfl
        obtain ⟨x, hx⟩ := Option.isSome_iff_exists.mp hbmem
        have hxmem : x ∈ obsEntries rest := by
          rw [hr]
          obtain ⟨hne, hxeq⟩ :=
            List.mem_getLast?_eq_getLast (l := b :: l) (x := x)
              (by rw [hx]; rfl)
          rw [hxeq]
          exact List.getLast_mem hne
        obtain ⟨tx, htx⟩ := observed_timestamp (obs_mem_observed hxmem)
        rw [hx]
        simp [htx]
    · rw [cstep_lastTimestamp, if_neg ho]
      simp [obsEntries, List.filter_cons, Bool.of_not_eq_true ho]

/-- Every event the line loop itself emits is a prompt, a turn end or a tool
call — the session bracketing events are added only afterwards. -/
def bodyEventsOK (evs : List ParsedEvent) : Prop :=
  ∀ e ∈ evs, e.event_type = EventType.prompt
    ∨ e.event_type = EventType.turn_end
    ∨ e.event_type = EventType.tool_call

lemma bodyEventsOK_append {a b : List ParsedEvent} (ha : bodyEventsOK a)
    (hb : bodyEventsOK b) : bodyEventsOK (a ++ b) := by
  intro e he
  rcases List.mem_append.mp he with h | h
  · exact ha e h
  · exact hb e h

lemma turnToolEvents_bodyOK (ts sid : String) (k : Nat)
    (tools : List TurnTool) : bodyEventsOK (turnToolEvents ts sid k tools) := by
  intro e he
  obtain ⟨t, _, rfl⟩ := List.mem_map.mp he
  right; right; rfl

lemma flushTurn_bodyOK {s : CState} (h : bodyEventsOK s.events) :
    bodyEventsOK (flushTurn s).events := by
  unfold flushTurn
  split
  · refine bodyEventsOK_append h ?_
    intro e he
    rcases List.mem_cons.mp he with rfl | h2
    · right; left; rfl
    · exact turnToolEvents_bodyOK _ _ _ _ e h2
  · exact h

lemma cstep_bodyOK {s : CState} (e : ClaudeEntry)
    (h : bodyEventsOK s.events) : bodyEventsOK (cstep s e).events := by
  unfold cstep
  cases e.sessionId <;> cases e.timestamp <;> simp
  · exact h
  · exact h
  · exact h
  · split
    · refine bodyEventsOK_append (flushTurn_bodyOK h) ?_
      intro ev hev
      rcases List.mem_singleton.mp hev with rfl
      left; rfl
    · split
      · split
        · exact h
        · cases e.message with
          | none => exact h
          | some m =>
            rw [absorbAssistant_events]
            exact h
      · exact h

lemma foldl_bodyOK (entries : List ClaudeEntry) {s : CState}
    (h : bodyEventsOK s.events) :
    bodyEventsOK (entries.foldl cstep s).events := by
  induction entries generalizing s with
  | nil => exact h
  | cons e rest ih => exact ih (cstep_bodyOK e h)

/-- Shape of a Claude parse with at least one observed entry: one
`session_start` stamped with the first observed timestamp, the body events,
one `session_end` stamped with the last observed timestamp. -/
lemma parseClaudeEntries_shape (hook : Option ClaudeHookPayload)
    (entries : List ClaudeEntry) (hobs : obsEntries entries ≠ []) :
    ∃ startEv endEv body,
      (parseClaudeEntries hook entries).events
          = startEv :: (body ++ [endEv])
      ∧ startEv.event_type = EventType.session_start
      ∧ (some startEv.timestamp
          = (obsEntries entries).head?.bind ClaudeEntry.timestamp)
      ∧ endEv.event_type = EventType.session_end
      ∧ (some endEv.timestamp
          = (obsEntries entries).getLast?.bind ClaudeEntry.timestamp)
      ∧ bodyEventsOK body := by
  obtain ⟨e0, rest0, hcons⟩ := List.exists_cons_of_ne_nil hobs
  have he0 : e0 ∈ obsEntries entries := by rw [hcons]; simp
  obtain ⟨t0, ht0⟩ := observed_timestamp (obs_mem_observed he0)
  obtain ⟨sid0, hsid0⟩ := observed_sessionId (obs_mem_observed he0)
  have hlast : ∃ eL, (obsEntries entries).getLast? = some eL := by
    cases hgl : (obsEntries entries).getLast? with
    | none =>
      rw [List.getLast?_eq_none_iff] at hgl
      exact absurd hgl hobs
    | some x => exact ⟨x, rfl⟩
  obtain ⟨eL, heL⟩ := hlast
  have heLmem : eL ∈ obsEntries entries := by
    obtain ⟨hne, hxeq⟩ :=
      List.mem_getLast?_eq_getLast (l := obsEntries entries) (x := eL)
        (by rw [heL]; rfl)
    rw [hxeq]
    exact List.getLast_mem hne
  obtain ⟨t1, ht1⟩ := observed_timestamp (obs_mem_observed heLmem)
  unfold parseClaudeEntries
  dsimp only
  set init : CState :=
    { sessionId := hook.map ClaudeHookPayload.session_id
      sessionCwd := hook.map ClaudeHookPayload.cwd } with hinit
  set sF := flushTurn (entries.foldl cstep init) with hsF
  have hft : sF.firstTimestamp = some t0 := by
    rw [hsF, flushTurn_firstTimestamp, foldl_firstTimestamp, hcons]
    simp [hinit, ht0]
  have hlt : sF.lastTimestamp = some t1 := by
    rw [hsF, flushTurn_lastTimestamp, foldl_lastTimestamp, heL]
    simp [ht1]
  have hsid : ∃ sid, sF.sessionId = some sid := by
    rw [hsF, flushTurn_sessionId, foldl_sessionId, hcons]
    cases hook with
    | none => exact ⟨sid0, by simp [hinit, hsid0]⟩
    | some hp => exact ⟨hp.session_id, by simp [hinit]⟩
  obtain ⟨sid, hsid⟩ := hsid
  have hbody : bodyEventsOK sF.events := by
    rw [hsF]
    exact flushTurn_bodyOK (foldl_bodyOK entries (by intro e he; cases he))
  rw [hsid, hft, hlt]
  refine ⟨_, _, sF.events, rfl, rfl, ?_, rfl, ?_, hbody⟩
  · rw [hcons]; simp [ht0]
  · rw [heL]; simp [ht1]

lemma cuAbsorbAssistant_events (s : CuState) (ets : String) (m : CMessage) :
    (cuAbsorbAssistant s ets m).events = s.events := by
  unfold cuAbsorbAssistant; split
  · rfl
  · cases m.usage <;> rfl

lemma cursorFlushTurn_bodyOK {s : CuState} (hm : Option String)
    (h : bodyEventsOK s.events) :
    bodyEventsOK (cursorFlushTurn hm s).events := by
  unfold cursorFlushTurn
  split
  · refine bodyEventsOK_append h ?_
    intro e he
    rcases List.mem_cons.mp he with rfl | h2
    · right; left; rfl
    · exact turnToolEvents_bodyOK _ _ _ _ e h2
  · exact h

lemma custep_bodyOK (hook : Option CursorHookPayload) (cwd0 : Option String)
    {s : CuState} (e : CursorEntry) (h : bodyEventsOK s.events) :
    bodyEventsOK (custep hook cwd0 s e).events := by
  unfold custep
  cases e.timestamp <;> simp
  · exact h
  · split
    · exact h
    · split
      · cases e.message with
        | none => exact cursorFlushTurn_bodyOK _ h
        | some m =>
          simp only
          split
          · exact cursorFlushTurn_bodyOK _ h
          · refine bodyEventsOK_append (cursorFlushTurn_bodyOK _ h) ?_
            intro ev hev
            rcases List.mem_singleton.mp hev with rfl
            left; rfl
      · split
        · cases e.message with
          | none => exact h
          | some m =>
            rw [cuAbsorbAssistant_events]
            exact h
        · exact h

lemma parseCursor_bodyOK (hook : Option CursorHookPayload)
    (lines : List CursorLine) :
    bodyEventsOK (parseCursorTranscript hook lines).events := by
  unfold parseCursorTranscript
  dsimp only
  refine cursorFlushTurn_bodyOK _ ?_
  generalize hinit : ({ sessionId := Option.map CursorHookPayload.conversation_id hook, curModel := Option.map CursorHookPayload.model hook } : CuState) = init
  have h0 : bodyEventsOK init.events := by
    rw [← hinit]; intro e he; cases he
  clear hinit
  induction lines generalizing init with
  | nil => exact h0
  | cons l rest ih =>
    cases l with
    | ok e => exact ih _ (custep_bodyOK _ _ e h0)
    | bad => exact ih _ h0

lemma bodyOK_countP_start {body : List ParsedEvent} (h : bodyEventsOK body) :
    body.countP (fun e => e.event_type = EventType.session_start) = 0 := by
  rw [List.countP_eq_zero]
  intro e he
  rcases h e he with h1 | h1 | h1 <;> simp [h1]

lemma bodyOK_countP_end {body : List ParsedEvent} (h : bodyEventsOK body) :
    body.countP (fun e => e.event_type = EventType.session_end) = 0 := by
  rw [List.countP_eq_zero]
  intro e he
  rcases h e he with h1 | h1 | h1 <;> simp [h1]

/-- C7 (amended): the Claude adapter does bracket every non-empty transcript
— its event sequence starts with exactly one `session_start` at the first
observed entry timestamp and ends with exactly one `session_end` at the last
(the Codex and Gemini adapters do the same) — but the Cursor adapter, also
line-oriented, never synthesizes a `session_start` or `session_end` at
all. -/
theorem session_bracketing_amended (hook : Option ClaudeHookPayload)
    (entries : List ClaudeEntry) (chook : Option CursorHookPayload)
    (clines : List CursorLine) :
    (obsEntries entries ≠ [] →
      ((parseClaudeEntries hook entries).events.head?.map
          ParsedEvent.event_type = some EventType.session_start)
      ∧ ((parseClaudeEntries hook entries).events.head?.map
          ParsedEvent.timestamp
          = (obsEntries entries).head?.bind ClaudeEntry.timestamp)
      ∧ ((parseClaudeEntries hook entries).events.getLast?.map
          ParsedEvent.event_type = some EventType.session_end)
      ∧ ((parseClaudeEntries hook entries).events.getLast?.map
          ParsedEvent.timestamp
          = (obsEntries entries).getLast?.bind ClaudeEntry.timestamp)
      ∧ ((parseClaudeEntries hook entries).events.countP
          (fun e => e.event_type = EventType.session_start) = 1)
      ∧ ((parseClaudeEntries hook entries).events.countP
          (fun e => e.event_type = EventType.session_end) = 1))
    ∧ (∀ e ∈ (parseCursorTranscript chook clines).events,
        e.event_type ≠ EventType.session_start
        ∧ e.event_type ≠ EventType.session_end) := by
  constructor
  · intro hobs
    obtain ⟨startEv, endEv, body, hev, hst, hstts, hen, hents, hbody⟩ :=
      parseClaudeEntries_shape hook entries hobs
    have hlast : (parseClaudeEntries hook entries).events.getLast?
        = some endEv := by
      rw [hev, ← List.cons_append]
      exact List.getLast?_concat _
    refine ⟨?_, ?_, ?_, ?_, ?_, ?_⟩
    · rw [hev]; simp [hst]
    · rw [hev]; simp [← hstts]
    · rw [hlast]; simp [hen]
    · rw [hlast]; simp [← hents]
    · rw [hev, List.countP_cons, List.countP_append, List.countP_cons,
        bodyOK_countP_start hbody]
      simp [hst, hen]
    · rw [hev, List.countP_cons, List.countP_append, List.countP_cons,
        bodyOK_countP_end hbody]
      simp [hst, hen]
  · intro e he
    rcases parseCursor_bodyOK chook clines e he with h1 | h1 | h1 <;>
      simp [h1]

/-- A well-formed Cursor user entry. -/
def cursorUserEntry : CursorEntry :=
  { type := "user", timestamp := some "2024-01-15T10:00:00Z",
    conversationId := some "conv-1",
    message := some { role := "user", content := CContent.str "hello" } }

/-- C7 (counterexample): a non-empty Cursor transcript parses to a bare
`prompt` — no `session_start` heads the sequence and no `session_end` closes
it, so the bracketing claim fails for this line-oriented adapter. -/
theorem cursor_no_session_bracketing_cex :
    ((parseCursorTranscript none [CursorLine.ok cursorUserEntry]).events.map
      ParsedEvent.event_type = [EventType.prompt])
    ∧ EventType.prompt ≠ EventType.session_start := by
  refine ⟨by decide, by decide⟩

/-! ### Turn-index block structure -/

/-- The (event type, turn index) projection of the events that carry a turn
index, in emission order. -/
def indexedOf (evs : List ParsedEvent) : List (EventType × Nat) :=
  evs.filterMap (fun e => e.turn_index.map (fun i => (e.event_type, i)))

/-- The canonical indexed-event shape: for each turn count `m`, one
`turn_end` followed by `m` `tool_call`s, all sharing the turn's index;
indexes are assigned contiguously from `start`. -/
def blocksOf (start : Nat) : List Nat → List (EventType × Nat)
  | [] => []
  | m :: ms =>
    ((EventType.turn_end, start) ::
      List.replicate m (EventType.tool_call, start)) ++ blocksOf (start + 1) ms

lemma indexedOf_append (a b : List ParsedEvent) :
    indexedOf (a ++ b) = indexedOf a ++ indexedOf b := by
  simp [indexedOf, List.filterMap_append]

lemma indexedOf_cons_none {e : ParsedEvent} (h : e.turn_index = none)
    (l : List ParsedEvent) : indexedOf (e :: l) = indexedOf l := by
  simp [indexedOf, List.filterMap_cons, h]

lemma indexedOf_turnToolEvents (ts sid : String) (k : Nat)
    (tools : List TurnTool) :
    indexedOf (turnToolEvents ts sid k tools)
      = List.replicate tools.length (EventType.tool_call, k) := by
  induction tools with
  | nil => rfl
  | cons t rest ih =>
    simp only [turnToolEvents, List.map_cons, indexedOf,
      List.filterMap_cons] at ih ⊢
    simp only [List.length_cons, List.replicate_succ]
    rw [← ih]
    rfl

lemma blocksOf_snoc (s : Nat) (ms : List Nat) (m : Nat) :
    blocksOf s (ms ++ [m])
      = blocksOf s ms ++
        ((EventType.turn_end, s + ms.length) ::
          List.replicate m (EventType.tool_call, s + ms.length)) := by
  induction ms generalizing s with
  | nil => simp [blocksOf]
  | cons m' ms' ih =>
    have harith : s + 1 + ms'.length = s + (ms'.length + 1) := by omega
    simp only [List.cons_append, blocksOf, List.length_cons,
      List.append_assoc, List.append_eq]
    rw [ih (s + 1), harith]

/-- The indexed events so far form turn blocks `1 … k`. -/
def TurnBlocks (evs : List ParsedEvent) (k : Nat) : Prop :=
  ∃ counts : List Nat, counts.length = k ∧ indexedOf evs = blocksOf 1 counts

/-- Every emitted `turn_end`/`tool_call` carries a turn index. -/
def IdxPresent (evs : List ParsedEvent) : Prop :=
  ∀ e ∈ evs, (e.event_type = EventType.turn_end
    ∨ e.event_type = EventType.tool_call) → e.turn_index.isSome

lemma IdxPresent_append {a b : List ParsedEvent} (ha : IdxPresent a)
    (hb : IdxPresent b) : IdxPresent (a ++ b) := by
  intro e he
  rcases List.mem_append.mp he with h | h
  · exact ha e h
  · exact hb e h

lemma indexedOf_cons_some {e : ParsedEvent} {k : Nat}
    (h : e.turn_index = some k) (l : List ParsedEvent) :
    indexedOf (e :: l) = (e.event_type, k) :: indexedOf l := by
  simp [indexedOf, List.filterMap_cons, h]

lemma flushTurn_blocks {s : CState}
    (h : TurnBlocks s.events s.turnIndex) :
    TurnBlocks (flushTurn s).events (flushTurn s).turnIndex := by
  unfold flushTurn
  split
  · obtain ⟨counts, hlen, hidx⟩ := h
    refine ⟨counts ++ [s.curTools.length], by simp [hlen], ?_⟩
    dsimp only
    rw [indexedOf_append, hidx, blocksOf_snoc]
    have harith : (1 : Nat) + counts.length = s.turnIndex + 1 := by omega
    rw [harith]
    congr 1
    rw [indexedOf_cons_some rfl, indexedOf_turnToolEvents]
  · exact h

lemma pushPrompt_blocks {s : CState} (ets : String) (msg : Option CMessage)
    (h : TurnBlocks s.events s.turnIndex) :
    TurnBlocks (pushPrompt s ets msg).events (pushPrompt s ets msg).turnIndex := by
  obtain ⟨counts, hlen, hidx⟩ := h
  refine ⟨counts, hlen, ?_⟩
  show indexedOf (s.events ++ _) = _
  rw [indexedOf_append, hidx]
  simp [indexedOf]

lemma absorbAssistant_blocks {s : CState} (ets : String) (m : CMessage)
    (h : TurnBlocks s.events s.turnIndex) :
    TurnBlocks (absorbAssistant s ets m).events
      (absorbAssistant s ets m).turnIndex := by
  rw [absorbAssistant_events, absorbAssistant_turnIndex]
  exact h

lemma cstep_blocks {s : CState} (e : ClaudeEntry)
    (h : TurnBlocks s.events s.turnIndex) :
    TurnBlocks (cstep s e).events (cstep s e).turnIndex := by
  unfold cstep
  cases e.sessionId <;> cases e.timestamp <;> simp
  · exact h
  · exact h
  · exact h
  · split
    · exact pushPrompt_blocks _ _ (flushTurn_blocks h)
    · split
      · split
        · exact h
        · cases e.message with
          | none => exact h
          | some m => exact absorbAssistant_blocks _ m h
      · exact h

lemma foldl_blocks (entries : List ClaudeEntry) {s : CState}
    (h : TurnBlocks s.events s.turnIndex) :
    TurnBlocks ((entries.foldl cstep s).events)
      ((entries.foldl cstep s).turnIndex) := by
  induction entries generalizing s with
  | nil => exact h
  | cons e rest ih => exact ih (cstep_blocks e h)

lemma parseClaude_blocks (hook : Option ClaudeHookPayload)
    (entries : List ClaudeEntry) :
    ∃ counts : List Nat,
      indexedOf (parseClaudeEntries hook entries).events
        = blocksOf 1 counts := by
  unfold parseClaudeEntries
  dsimp only
  have h1 := flushTurn_blocks (foldl_blocks entries
    (s := { sessionId := hook.map ClaudeHookPayload.session_id
            sessionCwd := hook.map ClaudeHookPayload.cwd })
    ⟨[], rfl, rfl⟩)
  obtain ⟨counts, hlen, hidx⟩ := h1
  refine ⟨counts, ?_⟩
  split
  · split
    · rw [indexedOf_append, indexedOf_cons_none rfl, hidx]
      simp [indexedOf]
    · rw [indexedOf_append, hidx]
      simp [indexedOf]
  · split
    · rw [indexedOf_cons_none rfl, hidx]
    · exact hidx

lemma turnToolEvents_idx (ts sid : String) (k : Nat)
    (tools : List TurnTool) : IdxPresent (turnToolEvents ts sid k tools) := by
  intro e he _
  obtain ⟨t, _, rfl⟩ := List.mem_map.mp he
  rfl

lemma flushTurn_idx {s : CState} (h : IdxPresent s.events) :
    IdxPresent (flushTurn s).events := by
  unfold flushTurn
  split
  · refine IdxPresent_append h ?_
    intro e he
    rcases List.mem_cons.mp he with rfl | h2
    · intro _; rfl
    · exact turnToolEvents_idx _ _ _ _ e h2
  · exact h

lemma cstep_idx {s : CState} (e : ClaudeEntry) (h : IdxPresent s.events) :
    IdxPresent (cstep s e).events := by
  unfold cstep
  cases e.sessionId <;> cases e.timestamp <;> simp
  · exact h
  · exact h
  · exact h
  · split
    · refine IdxPresent_append (flushTurn_idx h) ?_
      intro ev hev
      rcases List.mem_singleton.mp hev with rfl
      intro hty
      rcases hty with hty | hty <;> cases hty
    · split
      · split
        · exact h
        · cases e.message with
          | none => exact h
          | some m =>
            rw [absorbAssistant_events]
            exact h
      · exact h

lemma foldl_idx (entries : List ClaudeEntry) {s : CState}
    (h : IdxPresent s.events) :
    IdxPresent ((entries.foldl cstep s).events) := by
  induction entries generalizing s with
  | nil => exact h
  | cons e rest ih => exact ih (cstep_idx e h)

lemma parseClaude_idx (hook : Option ClaudeHookPayload)
    (entries : List ClaudeEntry) :
    IdxPresent (parseClaudeEntries hook entries).events := by
  unfold parseClaudeEntries
  dsimp only
  have h1 := flushTurn_idx (foldl_idx entries
    (s := { sessionId := hook.map ClaudeHookPayload.session_id
            sessionCwd := hook.map ClaudeHookPayload.cwd })
    (by intro e he; cases he))
  split
  · split
    · refine IdxPresent_append ?_ ?_
      · intro ev hev
        rcases List.mem_cons.mp hev with rfl | h2
        · intro hty; rcases hty with hty | hty <;> cases hty
        · exact h1 ev h2
      · intro ev hev
        rcases List.mem_singleton.mp hev with rfl
        intro hty
        rcases hty with hty | hty <;> cases hty
    · refine IdxPresent_append h1 ?_
      intro ev hev
      rcases List.mem_singleton.mp hev with rfl
      intro hty
      rcases hty with hty | hty <;> cases hty
  · split
    · intro ev hev
      rcases List.mem_cons.mp hev with rfl | h2
      · intro hty; rcases hty with hty | hty <;> cases hty
      · exact h1 ev h2
    · exact h1

lemma indexedOf_gToolEvents (sessionId : String) (cwd0 : Option String)
    (mts : String) (k : Nat) (tcs : List GToolCall) :
    indexedOf (gToolEvents sessionId cwd0 mts k tcs)
      = List.replicate tcs.length (EventType.tool_call, k) := by
  induction tcs with
  | nil => rfl
  | cons tc rest ih =>
    simp only [gToolEvents, List.map_cons, indexedOf,
      List.filterMap_cons] at ih ⊢
    simp only [List.length_cons, List.replicate_succ]
    rw [← ih]
    rfl

lemma gstep_blocks (sessionId : String) (cwd0 : Option String)
    {s : GState} (m : GMsg) (h : TurnBlocks s.events s.turnIndex) :
    TurnBlocks (gstep sessionId cwd0 s m).events
      (gstep sessionId cwd0 s m).turnIndex := by
  unfold gstep
  cases hts : m.ts with
  | none => exact h
  | some mts =>
    cases m with
    | user content t =>
      obtain ⟨counts, hlen, hidx⟩ := h
      refine ⟨counts, hlen, ?_⟩
      dsimp only
      rw [indexedOf_append, hidx]
      simp [indexedOf]
    | gmsg content toolCalls tokens model t =>
      obtain ⟨counts, hlen, hidx⟩ := h
      refine ⟨counts ++ [(toolCalls.getD []).length], by simp [hlen], ?_⟩
      dsimp only
      rw [indexedOf_append, hidx, blocksOf_snoc]
      have harith : (1 : Nat) + counts.length = s.turnIndex + 1 := by omega
      rw [harith]
      congr 1
      rw [indexedOf_cons_some rfl, indexedOf_gToolEvents]
    | error content t =>
      obtain ⟨counts, hlen, hidx⟩ := h
      refine ⟨counts, hlen, ?_⟩
      dsimp only
      rw [indexedOf_append, hidx]
      simp [indexedOf]
    | info content t => exact h

lemma gfoldl_blocks (sessionId : String) (cwd0 : Option String)
    (msgs : List GMsg) {s : GState} (h : TurnBlocks s.events s.turnIndex) :
    TurnBlocks ((msgs.foldl (gstep sessionId cwd0) s).events)
      ((msgs.foldl (gstep sessionId cwd0) s).turnIndex) := by
  induction msgs generalizing s with
  | nil => exact h
  | cons m rest ih => exact ih (gstep_blocks _ _ m h)

lemma parseGemini_blocks (hook : Option GeminiHookPayload)
    (doc : Option GeminiTranscript) :
    ∃ counts : List Nat,
      indexedOf (parseGeminiTranscript hook doc).events = blocksOf 1 counts := by
  unfold parseGeminiTranscript
  cases doc with
  | none => exact ⟨[], rfl⟩
  | some t =>
    dsimp only
    obtain ⟨counts, hlen, hidx⟩ := gfoldl_blocks
      ((hook.map GeminiHookPayload.session_id).getD t.sessionId)
      (hook.map GeminiHookPayload.cwd) t.messages
      (s := { lastTimestamp := t.lastUpdated }) ⟨[], rfl, rfl⟩
    refine ⟨counts, ?_⟩
    split
    · split
      · split
        · exact hidx
        · exact hidx
      · split
        · rw [indexedOf_append, indexedOf_cons_none rfl, hidx]
          simp [indexedOf]
        · rw [indexedOf_append, hidx]
          simp [indexedOf]
    · split
      · split
        · exact hidx
        · rw [indexedOf_cons_none rfl, hidx]
      · exact hidx

lemma gToolEvents_idx (sessionId : String) (cwd0 : Option String)
    (mts : String) (k : Nat) (tcs : List GToolCall) :
    IdxPresent (gToolEvents sessionId cwd0 mts k tcs) := by
  intro e he _
  obtain ⟨tc, _, rfl⟩ := List.mem_map.mp he
  rfl

lemma gstep_idx (sessionId : String) (cwd0 : Option String) {s : GState}
    (m : GMsg) (h : IdxPresent s.events) :
    IdxPresent (gstep sessionId cwd0 s m).events := by
  unfold gstep
  cases hts : m.ts with
  | none => exact h
  | some mts =>
    cases m with
    | user content t =>
      refine IdxPresent_append h ?_
      intro ev hev
      rcases List.mem_singleton.mp hev with rfl
      intro hty
      rcases hty with hty | hty <;> cases hty
    | gmsg content toolCalls tokens model t =>
      refine IdxPresent_append h ?_
      intro ev hev
      rcases List.mem_cons.mp hev with rfl | h2
      · intro _; rfl
      · exact gToolEvents_idx _ _ _ _ _ ev h2
    | error content t =>
      refine IdxPresent_append h ?_
      intro ev hev
      rcases List.mem_singleton.mp hev with rfl
      intro hty
      rcases hty with hty | hty <;> cases hty
    | info content t => exact h

lemma parseGemini_idx (hook : Option GeminiHookPayload)
    (doc : Option GeminiTranscript) :
    IdxPresent (parseGeminiTranscript hook doc).events := by
  unfold parseGeminiTranscript
  cases doc with
  | none => intro e he; cases he
  | some t =>
    dsimp only
    have h1 : IdxPresent ((t.messages.foldl
        (gstep ((hook.map GeminiHookPayload.session_id).getD t.sessionId)
          (hook.map GeminiHookPayload.cwd))
        { lastTimestamp := t.lastUpdated }).events) := by
      generalize hs : ({ lastTimestamp := t.lastUpdated } : GState) = s0
      have h0 : IdxPresent s0.events := by
        rw [← hs]; intro e he; cases he
      clear hs
      induction t.messages generalizing s0 with
      | nil => exact h0
      | cons m rest ih => exact ih _ (gstep_idx _ _ m h0)
    have hbr : ∀ ev : ParsedEvent, ev.event_type = EventType.session_start
        ∨ ev.event_type = EventType.session_end →
        ∀ l, IdxPresent l → IdxPresent (ev :: l) := by
      intro ev hty l hl e he
      rcases List.mem_cons.mp he with rfl | h2
      · intro hc
        rcases hty with hty | hty <;> rw [hty] at hc <;>
          rcases hc with hc | hc <;> cases hc
      · exact hl e h2
    split
    · split
      · split
        · exact h1
        · exact h1
      · split
        · refine IdxPresent_append ?_ ?_
          · refine fun e he => ?_
            rcases List.mem_cons.mp he with rfl | h2
            · intro hc; rcases hc with hc | hc <;> cases hc
            · exact h1 e h2
          · intro ev hev
            rcases List.mem_singleton.mp hev with rfl
            intro hc
            rcases hc with hc | hc <;> cases hc
        · refine IdxPresent_append h1 ?_
          intro ev hev
          rcases List.mem_singleton.mp hev with rfl
          intro hc
          rcases hc with hc | hc <;> cases hc
    · split
      · split
        · exact h1
        · refine fun e he => ?_
          rcases List.mem_cons.mp he with rfl | h2
          · intro hc; rcases hc with hc | hc <;> cases hc
          · exact h1 e h2
      · exact h1

lemma blocksOf_filter_turn_end (s : Nat) (counts : List Nat) :
    (((blocksOf s counts).filter
        (fun p => p.1 = EventType.turn_end)).map Prod.snd)
      = List.range' s counts.length := by
  induction counts generalizing s with
  | nil => rfl
  | cons m ms ih =>
    have hrep : (List.replicate m ((EventType.tool_call, s))).filter
        (fun p => decide (p.1 = EventType.turn_end)) = [] := by
      rw [List.filter_eq_nil_iff]
      intro a ha
      rw [List.eq_of_mem_replicate ha]
      simp
    simp only [blocksOf, List.filter_append, List.filter_cons]
    rw [hrep]
    simp only [List.length_cons, List.range'_succ, decide_True,
      List.map_cons, List.map_append]
    simp [ih]

/-- C5: for every Claude transcript and every Gemini transcript, the indexed
events form turn blocks `blocksOf 1 counts`: the `turn_end`s carry the
contiguous indexes 1, 2, …, k in emission order (strictly increasing, no
gaps), each `tool_call` follows its turn's `turn_end` carrying the same
index, every emitted `turn_end`/`tool_call` carries an index, and the
sequence of `turn_end` indexes read off the output is exactly
`[1, …, k]`. -/
theorem turn_index_blocks (hook : Option ClaudeHookPayload)
    (entries : List ClaudeEntry) (ghook : Option GeminiHookPayload)
    (gdoc : Option GeminiTranscript) :
    (∃ counts : List Nat,
      indexedOf (parseClaudeEntries hook entries).events = blocksOf 1 counts)
    ∧ IdxPresent (parseClaudeEntries hook entries).events
    ∧ (((indexedOf (parseClaudeEntries hook entries).events).filter
          (fun p => p.1 = EventType.turn_end)).map Prod.snd
        = List.range' 1
            ((indexedOf (parseClaudeEntries hook entries).events).filter
              (fun p => p.1 = EventType.turn_end)).length)
    ∧ (∃ counts : List Nat,
      indexedOf (parseGeminiTranscript ghook gdoc).events = blocksOf 1 counts)
    ∧ IdxPresent (parseGeminiTranscript ghook gdoc).events
    ∧ (((indexedOf (parseGeminiTranscript ghook gdoc).events).filter
          (fun p => p.1 = EventType.turn_end)).map Prod.snd
        = List.range' 1
            ((indexedOf (parseGeminiTranscript ghook gdoc).events).filter
              (fun p => p.1 = EventType.turn_end)).length) := by
  obtain ⟨counts, hidx⟩ := parseClaude_blocks hook entries
  obtain ⟨gcounts, hgidx⟩ := parseGemini_blocks ghook gdoc
  have hlen : ∀ (cs : List Nat),
      ((blocksOf 1 cs).filter (fun p => p.1 = EventType.turn_end)).length
        = cs.length := by
    intro cs
    have := congrArg List.length (blocksOf_filter_turn_end 1 cs)
    simpa using this
  refine ⟨⟨counts, hidx⟩, parseClaude_idx hook entries, ?_,
    ⟨gcounts, hgidx⟩, parseGemini_idx ghook gdoc, ?_⟩
  · rw [hidx, hlen counts, blocksOf_filter_turn_end]
  · rw [hgidx, hlen gcounts, blocksOf_filter_turn_end]
